import Mathlib

/-!
Shallow embedding of the coral repository's graph builder (`src/analyzer.rs`)
and diff engine (`src/diff.rs`), together with proofs of the specified
properties.  Rust `HashMap`s are modelled as association lists with
prepend-insert / first-match-lookup (which realises the overwrite semantics),
`HashSet`s as duplicate-free accumulation lists, and the stable `sort_by`
calls as a stable insertion sort.
-/

namespace Coral

/-! ### Descriptor input types (the subset of `prost_types` the analyzer reads) -/

structure FieldDescriptorProto where
  name : Option String
  number : Option Int
  fieldType : Option Int
  typeName : Option String
  label : Option Int
deriving DecidableEq

structure EnumValueDescriptorProto where
  name : Option String
  number : Option Int
deriving DecidableEq

structure EnumDescriptorProto where
  name : Option String
  value : List EnumValueDescriptorProto
deriving DecidableEq

inductive DescriptorProto where
  | mk (name : Option String) (field : List FieldDescriptorProto)
       (nestedType : List DescriptorProto) (enumType : List EnumDescriptorProto)

def DescriptorProto.name : DescriptorProto → Option String
  | .mk n _ _ _ => n

def DescriptorProto.field : DescriptorProto → List FieldDescriptorProto
  | .mk _ f _ _ => f

def DescriptorProto.nestedType : DescriptorProto → List DescriptorProto
  | .mk _ _ ns _ => ns

def DescriptorProto.enumType : DescriptorProto → List EnumDescriptorProto
  | .mk _ _ _ es => es

structure MethodDescriptorProto where
  name : Option String
  inputType : Option String
  outputType : Option String
deriving DecidableEq

structure ServiceDescriptorProto where
  name : Option String
  method : List MethodDescriptorProto
deriving DecidableEq

structure FileDescriptorProto where
  name : Option String
  package : Option String
  messageType : List DescriptorProto
  enumType : List EnumDescriptorProto
  service : List ServiceDescriptorProto

structure FileDescriptorSet where
  file : List FileDescriptorProto

/-! ### Domain model (`src/domain`) as used by the analyzer and the diff engine -/

inductive NodeType where
  | Service
  | Message
  | Enum
  | External
deriving DecidableEq

structure MethodSignature where
  name : String
  inputType : String
  outputType : String
deriving DecidableEq

structure FieldInfo where
  name : String
  number : Int
  typeName : String
  label : String
deriving DecidableEq

structure EnumValue where
  name : String
  number : Int
deriving DecidableEq

structure MessageDef where
  name : String
  fields : List FieldInfo
deriving DecidableEq

inductive NodeDetails where
  | Service (methods : List MethodSignature) (messages : List MessageDef)
  | Message (fields : List FieldInfo)
  | Enum (values : List EnumValue)
  | External
deriving DecidableEq

structure Node where
  id : String
  nodeType : NodeType
  package : String
  label : String
  file : String
  details : NodeDetails
deriving DecidableEq

structure Edge where
  source : String
  target : String
deriving DecidableEq

structure Package where
  id : String
  nodeIds : List String
deriving DecidableEq

structure GraphModel where
  nodes : List Node
  edges : List Edge
  packages : List Package
deriving DecidableEq

/-! ### String helpers, char-list based translations of the Rust `str` methods used -/

/-- `str::starts_with` on strings, via the character lists. -/
def charsStartWith : List Char → List Char → Bool
  | _, [] => true
  | [], _ :: _ => false
  | c :: cs, p :: ps => c == p && charsStartWith cs ps

def strStartsWith (s p : String) : Bool :=
  charsStartWith s.toList p.toList

/-- `str::trim_start_matches('.')`: drop every leading dot. -/
def trimLeadingDots (s : String) : String :=
  String.mk (s.toList.dropWhile (fun c => c == '.'))

/-- Split a character list at every dot (helper for `split`/`rsplit`/`rsplitn`). -/
def splitDotsAux (acc : List Char) : List Char → List (List Char)
  | [] => [acc.reverse]
  | c :: cs => if c == '.' then acc.reverse :: splitDotsAux [] cs else splitDotsAux (c :: acc) cs

def splitDots (s : String) : List String :=
  (splitDotsAux [] s.toList).map String.mk

/-- `str::replace('.', "/")`: pointwise since the pattern and replacement are single chars. -/
def replaceDotsBySlashes (s : String) : String :=
  String.mk (s.toList.map (fun c => if c == '.' then '/' else c))

def joinWithDot : List String → String
  | [] => ""
  | [x] => x
  | x :: xs => x ++ "." ++ joinWithDot xs

/-! ### Analyzer state (`struct Analyzer`): the three resolution maps -/

structure Analyzer where
  typeToNodeId : List (String × String)
  typeToMessageDef : List (String × MessageDef)
  externalPackages : List String

def Analyzer.new : Analyzer :=
  { typeToNodeId := [], typeToMessageDef := [], externalPackages := [] }

/-- `HashMap::insert`: prepend, so that first-match lookup sees the newest binding. -/
def mapInsert (k v : String) (m : List (String × String)) : List (String × String) :=
  (k, v) :: m

def defInsert (k : String) (v : MessageDef) (m : List (String × MessageDef)) :
    List (String × MessageDef) :=
  (k, v) :: m

/-- `HashSet::insert` for the external-package set. -/
def setInsert (k : String) (s : List String) : List String :=
  if k ∈ s then s else k :: s

/-! ### Analyzer helper functions, one per Rust method -/

def isExternalFile (filePath : String) : Bool :=
  strStartsWith filePath "google/" || strStartsWith filePath "buf/"

def generateNodeId (package name : String) : String :=
  if package.isEmpty then name else package ++ "." ++ name

def generateFqType (package name : String) : String :=
  if package.isEmpty then "." ++ name else "." ++ package ++ "." ++ name

/-- `".user.v1.GetUserRequest"` → `"GetUserRequest"` (`extract_short_type`). -/
def extractShortType : Option String → String
  | some t => (splitDots t).getLastD t
  | none => ""

def labelToString : Option Int → String
  | some l =>
    if l == 1 then "optional"
    else if l == 2 then "required"
    else if l == 3 then "repeated"
    else "optional"
  | none => "optional"

def wireTypeName (t : Int) : String :=
  if t == 1 then "double" else if t == 2 then "float" else if t == 3 then "int64"
  else if t == 4 then "uint64" else if t == 5 then "int32" else if t == 6 then "fixed64"
  else if t == 7 then "fixed32" else if t == 8 then "bool" else if t == 9 then "string"
  else if t == 10 then "group" else if t == 11 then "message" else if t == 12 then "bytes"
  else if t == 13 then "uint32" else if t == 14 then "enum" else if t == 15 then "sfixed32"
  else if t == 16 then "sfixed64" else if t == 17 then "sint32" else if t == 18 then "sint64"
  else "unknown"

def typeToString (fieldType : Option Int) (typeName : Option String) : String :=
  match typeName.filter (fun n => !n.isEmpty) with
  | some n => extractShortType (some n)
  | none =>
    match fieldType with
    | some t => wireTypeName t
    | none => "unknown"

def fieldInfoOf (f : FieldDescriptorProto) : FieldInfo :=
  { name := f.name.getD ""
    number := f.number.getD 0
    typeName := typeToString f.fieldType f.typeName
    label := labelToString f.label }

-- `register_nested_message`, recursing through arbitrarily deep nesting.
mutual

def registerNestedMessage (a : Analyzer) (message : DescriptorProto) (parentFq : String) :
    Analyzer :=
  match message with
  | .mk name _ nested _ =>
    match name with
    | none => a
    | some n =>
      let fq := parentFq ++ "." ++ n
      let id := trimLeadingDots fq
      let a := { a with typeToNodeId := mapInsert fq id a.typeToNodeId }
      registerNestedMessageList a nested fq

def registerNestedMessageList (a : Analyzer) (ms : List DescriptorProto) (parentFq : String) :
    Analyzer :=
  match ms with
  | [] => a
  | m :: rest => registerNestedMessageList (registerNestedMessage a m parentFq) rest parentFq

end

def registerNestedEnum (a : Analyzer) (enumType : EnumDescriptorProto) (parentFq : String) :
    Analyzer :=
  match enumType.name with
  | none => a
  | some n =>
    let fq := parentFq ++ "." ++ n
    let id := trimLeadingDots fq
    { a with typeToNodeId := mapInsert fq id a.typeToNodeId }

def registerNestedEnumList (a : Analyzer) (es : List EnumDescriptorProto) (parentFq : String) :
    Analyzer :=
  es.foldl (fun a e => registerNestedEnum a e parentFq) a

def registerExternalType (a : Analyzer) (message : DescriptorProto) (package : String) :
    Analyzer :=
  match message.name with
  | none => a
  | some name =>
    let id := generateNodeId package name
    let fq := generateFqType package name
    let a := { a with typeToNodeId := mapInsert fq id a.typeToNodeId,
                      externalPackages := setInsert package a.externalPackages }
    registerNestedMessageList a message.nestedType fq

def registerExternalEnum (a : Analyzer) (enumType : EnumDescriptorProto) (package : String) :
    Analyzer :=
  match enumType.name with
  | none => a
  | some name =>
    let id := generateNodeId package name
    let fq := generateFqType package name
    { a with typeToNodeId := mapInsert fq id a.typeToNodeId,
             externalPackages := setInsert package a.externalPackages }

def createMessageNode (a : Analyzer) (message : DescriptorProto) (package fileName : String) :
    Analyzer × Option Node :=
  match message.name with
  | none => (a, none)
  | some name =>
    let id := generateNodeId package name
    let fq := generateFqType package name
    let a := { a with typeToNodeId := mapInsert fq id a.typeToNodeId }
    let a := registerNestedMessageList a message.nestedType fq
    let a := registerNestedEnumList a message.enumType fq
    let fields := message.field.map fieldInfoOf
    let a := { a with typeToMessageDef := defInsert fq ⟨name, fields⟩ a.typeToMessageDef }
    (a, some ⟨id, .Message, package, name, fileName, .Message fields⟩)

def createEnumNode (a : Analyzer) (enumType : EnumDescriptorProto) (package fileName : String) :
    Analyzer × Option Node :=
  match enumType.name with
  | none => (a, none)
  | some name =>
    let id := generateNodeId package name
    let fq := generateFqType package name
    let a := { a with typeToNodeId := mapInsert fq id a.typeToNodeId }
    let values := enumType.value.map (fun v => (⟨v.name.getD "", v.number.getD 0⟩ : EnumValue))
    (a, some ⟨id, .Enum, package, name, fileName, .Enum values⟩)

/-- The `seen_types`/`messages` accumulation inside `create_service_node`. -/
def collectServiceMessages (a : Analyzer) (methods : List MethodDescriptorProto) :
    List MessageDef :=
  (methods.foldl
    (fun (acc : List String × List MessageDef) m =>
      ([m.inputType, m.outputType].filterMap id).foldl
        (fun (acc : List String × List MessageDef) tn =>
          if tn ∈ acc.1 then acc
          else
            match a.typeToMessageDef.lookup tn with
            | some d => (tn :: acc.1, acc.2 ++ [d])
            | none => (tn :: acc.1, acc.2))
        acc)
    ([], [])).2

def createServiceNode (a : Analyzer) (service : ServiceDescriptorProto)
    (package fileName : String) : Analyzer × Option Node :=
  match service.name with
  | none => (a, none)
  | some name =>
    let id := generateNodeId package name
    let fq := generateFqType package name
    let a := { a with typeToNodeId := mapInsert fq id a.typeToNodeId }
    let methods := service.method.map (fun m =>
      (⟨m.name.getD "", extractShortType m.inputType, extractShortType m.outputType⟩ :
        MethodSignature))
    let messages := collectServiceMessages a service.method
    (a, some ⟨id, .Service, package, name, fileName, .Service methods messages⟩)

def createServiceEdges (a : Analyzer) (service : ServiceDescriptorProto) (package : String) :
    List Edge :=
  match service.name with
  | none => []
  | some serviceName =>
    let sourceId := generateNodeId package serviceName
    service.method.foldl
      (fun (edges : List Edge) m =>
        let edges :=
          match m.inputType with
          | some it =>
            match a.typeToNodeId.lookup it with
            | some targetId => edges ++ [⟨sourceId, targetId⟩]
            | none => edges
          | none => edges
        match m.outputType with
        | some ot =>
          match a.typeToNodeId.lookup ot with
          | some targetId => edges ++ [⟨sourceId, targetId⟩]
          | none => edges
        | none => edges)
      []

def isExternalType (fqType : String) : Bool :=
  let t := trimLeadingDots fqType
  strStartsWith t "google." || strStartsWith t "buf."

def ensureExternalNode (id fqType : String) (nodes : List Node) : List Node :=
  if nodes.any (fun n => n.id == id) then nodes
  else
    let typeWithoutDot := trimLeadingDots fqType
    let parts := splitDots typeWithoutDot
    let lp :=
      if parts.length ≥ 2 then (parts.getLastD typeWithoutDot, joinWithDot parts.dropLast)
      else (typeWithoutDot, "")
    let file := replaceDotsBySlashes lp.2 ++ ".proto"
    nodes ++ [⟨id, .External, lp.2, lp.1, file, .External⟩]

def createMessageEdges (a : Analyzer) (message : DescriptorProto) (package : String)
    (nodes : List Node) : List Edge × List Node :=
  match message.name with
  | none => ([], nodes)
  | some messageName =>
    let sourceId := generateNodeId package messageName
    message.field.foldl
      (fun (acc : List Edge × List Node) f =>
        match f.typeName with
        | none => acc
        | some tn =>
          match a.typeToNodeId.lookup tn with
          | none => acc
          | some targetId =>
            let nodes := if isExternalType tn then ensureExternalNode targetId tn acc.2 else acc.2
            (acc.1 ++ [⟨sourceId, targetId⟩], nodes))
      ([], nodes)

def dedupEdgesAux (seen : List (String × String)) : List Edge → List Edge
  | [] => []
  | e :: es =>
    if (e.source, e.target) ∈ seen then dedupEdgesAux seen es
    else e :: dedupEdgesAux ((e.source, e.target) :: seen) es

def deduplicateEdges (edges : List Edge) : List Edge :=
  dedupEdgesAux [] edges

/-- `group_packages`: group node ids by package, first-occurrence package order. -/
def groupPackagesAux (acc : List (String × List String)) : List Node →
    List (String × List String)
  | [] => acc
  | n :: rest =>
    let acc :=
      if acc.any (fun p => p.1 == n.package) then
        acc.map (fun p => if p.1 == n.package then (p.1, p.2 ++ [n.id]) else p)
      else acc ++ [(n.package, [n.id])]
    groupPackagesAux acc rest

def groupPackages (nodes : List Node) : List Package :=
  (groupPackagesAux [] nodes).map (fun p => ⟨p.1, p.2⟩)

/-! ### The three passes of `Analyzer::analyze` -/

def passOneFile (st : Analyzer × List Node) (file : FileDescriptorProto) :
    Analyzer × List Node :=
  let fileName := file.name.getD ""
  let package := file.package.getD ""
  let ext := isExternalFile fileName
  let st := file.messageType.foldl
    (fun (st : Analyzer × List Node) m =>
      if ext then (registerExternalType st.1 m package, st.2)
      else
        match createMessageNode st.1 m package fileName with
        | (a, some n) => (a, st.2 ++ [n])
        | (a, none) => (a, st.2))
    st
  file.enumType.foldl
    (fun (st : Analyzer × List Node) e =>
      if ext then (registerExternalEnum st.1 e package, st.2)
      else
        match createEnumNode st.1 e package fileName with
        | (a, some n) => (a, st.2 ++ [n])
        | (a, none) => (a, st.2))
    st

def passTwoFile (st : Analyzer × List Node) (file : FileDescriptorProto) :
    Analyzer × List Node :=
  let fileName := file.name.getD ""
  let package := file.package.getD ""
  file.service.foldl
    (fun (st : Analyzer × List Node) s =>
      match createServiceNode st.1 s package fileName with
      | (a, some n) => (a, st.2 ++ [n])
      | (a, none) => (a, st.2))
    st

def passThreeFile (a : Analyzer) (st : List Node × List Edge) (file : FileDescriptorProto) :
    List Node × List Edge :=
  let fileName := file.name.getD ""
  if isExternalFile fileName then st
  else
    let package := file.package.getD ""
    let st := file.service.foldl
      (fun (st : List Node × List Edge) s => (st.1, st.2 ++ createServiceEdges a s package))
      st
    file.messageType.foldl
      (fun (st : List Node × List Edge) m =>
        let en := createMessageEdges a m package st.1
        (en.2, st.2 ++ en.1))
      st

def analyzePass12 (a : Analyzer) (fds : FileDescriptorSet) : Analyzer × List Node :=
  let st := fds.file.foldl passOneFile (a, [])
  fds.file.foldl passTwoFile st

def analyzePass3 (a : Analyzer) (nodes : List Node) (fds : FileDescriptorSet) :
    List Node × List Edge :=
  fds.file.foldl (passThreeFile a) (nodes, [])

/-- The edge list accumulated by pass 3, before deduplication. -/
def analyzeRawEdges (fds : FileDescriptorSet) : List Edge :=
  (analyzePass3 (analyzePass12 Analyzer.new fds).1 (analyzePass12 Analyzer.new fds).2 fds).2

/-- `Analyzer::analyze` on an arbitrary starting state, returning the final state too
(the Rust method takes `&mut self`). -/
def analyzeWith (a : Analyzer) (fds : FileDescriptorSet) : GraphModel × Analyzer :=
  let st := analyzePass12 a fds
  let ne := analyzePass3 st.1 st.2 fds
  let edges := deduplicateEdges ne.2
  ({ nodes := ne.1, edges := edges, packages := groupPackages ne.1 }, st.1)

/-- `Analyzer::new()` followed by `analyze`, the way every caller in the repo uses it. -/
def analyze (fds : FileDescriptorSet) : GraphModel :=
  (analyzeWith Analyzer.new fds).1

/-! ### Diff engine (`src/diff.rs`) -/

structure DiffNode where
  id : String
  label : String
  package : String
deriving DecidableEq

def DiffNode.ofNode (n : Node) : DiffNode :=
  ⟨n.id, n.label, n.package⟩

structure DiffItems where
  services : List DiffNode
  messages : List DiffNode
  enums : List DiffNode
deriving DecidableEq

def DiffItems.empty : DiffItems :=
  ⟨[], [], []⟩

def DiffItems.isEmpty (it : DiffItems) : Bool :=
  it.services.isEmpty && it.messages.isEmpty && it.enums.isEmpty

inductive Change where
  | FieldAdded (field : FieldInfo)
  | FieldRemoved (field : FieldInfo)
  | MethodAdded (method : MethodSignature)
  | MethodRemoved (method : MethodSignature)
  | EnumValueAdded (value : EnumValue)
  | EnumValueRemoved (value : EnumValue)
deriving DecidableEq

structure ModifiedItem where
  nodeId : String
  label : String
  nodeType : NodeType
  package : String
  changes : List Change
deriving DecidableEq

structure DiffReport where
  added : DiffItems
  removed : DiffItems
  modified : List ModifiedItem
deriving DecidableEq

/-- Boolean string order agreeing with Rust's `Ord` comparison on `String`,
for the `sort_by` calls. -/
def charListLe : List Char → List Char → Bool
  | [], _ => true
  | _ :: _, [] => false
  | a :: as, b :: bs => if a == b then charListLe as bs else decide (a < b)

def strLe (a b : String) : Bool :=
  charListLe a.toList b.toList

/-- Stable insertion step for the (stable) `sort_by`. -/
def insertLeB (le : α → α → Bool) (x : α) : List α → List α
  | [] => [x]
  | y :: ys => if le x y then x :: y :: ys else y :: insertLeB le x ys

def sortLeB (le : α → α → Bool) (l : List α) : List α :=
  l.foldr (insertLeB le) []

/-- First-occurrence-ordered duplicate removal: the set of names a `HashSet`
collected from a list. -/
def distinctNames (names : List String) : List String :=
  names.foldl (fun acc n => if n ∈ acc then acc else acc ++ [n]) []

/-- `compute_method_changes`: name-set difference over method names. -/
def computeMethodChanges (baseMethods headMethods : List MethodSignature) : List Change :=
  let baseSet := baseMethods.map (fun m => m.name)
  let headSet := headMethods.map (fun m => m.name)
  let added := ((distinctNames headSet).filter (fun n => !decide (n ∈ baseSet))).filterMap
    (fun n => (headMethods.find? (fun m => m.name == n)).map Change.MethodAdded)
  let removed := ((distinctNames baseSet).filter (fun n => !decide (n ∈ headSet))).filterMap
    (fun n => (baseMethods.find? (fun m => m.name == n)).map Change.MethodRemoved)
  added ++ removed

/-- `compute_field_changes`: name-set difference over field names. -/
def computeFieldChanges (baseFields headFields : List FieldInfo) : List Change :=
  let baseSet := baseFields.map (fun f => f.name)
  let headSet := headFields.map (fun f => f.name)
  let added := ((distinctNames headSet).filter (fun n => !decide (n ∈ baseSet))).filterMap
    (fun n => (headFields.find? (fun f => f.name == n)).map Change.FieldAdded)
  let removed := ((distinctNames baseSet).filter (fun n => !decide (n ∈ headSet))).filterMap
    (fun n => (baseFields.find? (fun f => f.name == n)).map Change.FieldRemoved)
  added ++ removed

/-- `compute_enum_changes`: name-set difference over enum value names. -/
def computeEnumChanges (baseValues headValues : List EnumValue) : List Change :=
  let baseSet := baseValues.map (fun v => v.name)
  let headSet := headValues.map (fun v => v.name)
  let added := ((distinctNames headSet).filter (fun n => !decide (n ∈ baseSet))).filterMap
    (fun n => (headValues.find? (fun v => v.name == n)).map Change.EnumValueAdded)
  let removed := ((distinctNames baseSet).filter (fun n => !decide (n ∈ headSet))).filterMap
    (fun n => (baseValues.find? (fun v => v.name == n)).map Change.EnumValueRemoved)
  added ++ removed

def computeNodeChanges (base head : Node) : Option ModifiedItem :=
  let changes :=
    match base.details, head.details with
    | .Service bm _, .Service hm _ => computeMethodChanges bm hm
    | .Message bf, .Message hf => computeFieldChanges bf hf
    | .Enum bv, .Enum hv => computeEnumChanges bv hv
    | _, _ => []
  if changes.isEmpty then none
  else some ⟨head.id, head.label, head.nodeType, head.package, changes⟩

/-- The id → node `HashMap` built at the top of `compute` (last insert wins
under first-match lookup). -/
def nodeMap (m : GraphModel) : List (String × Node) :=
  m.nodes.foldl (fun acc n => (n.id, n) :: acc) []

/-- The key set of `nodeMap`. -/
def modelIds (m : GraphModel) : List String :=
  distinctNames (m.nodes.map (fun n => n.id))

def collectDiffItems (ids : List String) (nodes : List (String × Node)) : DiffItems :=
  let items := ids.foldl
    (fun (it : DiffItems) id =>
      match nodes.lookup id with
      | some n =>
        let d := DiffNode.ofNode n
        match n.nodeType with
        | .Service => { it with services := it.services ++ [d] }
        | .Message => { it with messages := it.messages ++ [d] }
        | .Enum => { it with enums := it.enums ++ [d] }
        | .External => it
      | none => it)
    DiffItems.empty
  ⟨sortLeB (fun a b => strLe a.id b.id) items.services,
   sortLeB (fun a b => strLe a.id b.id) items.messages,
   sortLeB (fun a b => strLe a.id b.id) items.enums⟩

def DiffReport.compute (base head : GraphModel) : DiffReport :=
  let baseNodes := nodeMap base
  let headNodes := nodeMap head
  let baseIds := modelIds base
  let headIds := modelIds head
  let added := collectDiffItems (headIds.filter (fun i => !decide (i ∈ baseIds))) headNodes
  let removed := collectDiffItems (baseIds.filter (fun i => !decide (i ∈ headIds))) baseNodes
  let modified := sortLeB (fun a b => strLe a.nodeId b.nodeId)
    ((baseIds.filter (fun i => decide (i ∈ headIds))).filterMap
      (fun id =>
        match baseNodes.lookup id, headNodes.lookup id with
        | some bn, some hn => computeNodeChanges bn hn
        | _, _ => none))
  ⟨added, removed, modified⟩

def DiffReport.hasChanges (r : DiffReport) : Bool :=
  !r.added.isEmpty || !r.removed.isEmpty || !r.modified.isEmpty

/-! ### Statement helpers -/

/-- All node ids mentioned in a `DiffItems` collection. -/
def DiffItems.allIds (it : DiffItems) : List String :=
  (it.services ++ it.messages ++ it.enums).map (fun d => d.id)

/-- The name carried by an added-kind atomic change. -/
def addedChangeName : Change → Option String
  | .FieldAdded f => some f.name
  | .MethodAdded m => some m.name
  | .EnumValueAdded v => some v.name
  | _ => none

/-- The name carried by a removed-kind atomic change. -/
def removedChangeName : Change → Option String
  | .FieldRemoved f => some f.name
  | .MethodRemoved m => some m.name
  | .EnumValueRemoved v => some v.name
  | _ => none

/-- Two name lists denote the same name set. -/
def sameNameSet (xs ys : List String) : Prop :=
  ∀ n, n ∈ xs ↔ n ∈ ys

/-- Spec-side condition, from the claim: the two nodes' (diffable) kinds match and
the relevant name sets differ.  External details carry no names, so an
External/External pair never satisfies it. -/
def claimModifiedCondition (bn hn : Node) : Prop :=
  match bn.details, hn.details with
  | .Service bm _, .Service hm _ =>
    ¬ sameNameSet (bm.map (fun m => m.name)) (hm.map (fun m => m.name))
  | .Message bf, .Message hf =>
    ¬ sameNameSet (bf.map (fun f => f.name)) (hf.map (fun f => f.name))
  | .Enum bv, .Enum hv =>
    ¬ sameNameSet (bv.map (fun v => v.name)) (hv.map (fun v => v.name))
  | _, _ => False

/-- Spec-side condition, from the claim: the change list carries exactly one
added entry per name only in head and one removed entry per name only in base. -/
def symmDiffCounts (bnames hnames : List String) (changes : List Change) : Prop :=
  ∀ n, (changes.filterMap addedChangeName).count n =
        (if n ∈ hnames ∧ n ∉ bnames then 1 else 0)
     ∧ (changes.filterMap removedChangeName).count n =
        (if n ∈ bnames ∧ n ∉ hnames then 1 else 0)

/-- Per-kind instantiation of `symmDiffCounts` for a modified record's change list. -/
def claimChangeCounts (bn hn : Node) (changes : List Change) : Prop :=
  match bn.details, hn.details with
  | .Service bm _, .Service hm _ =>
    symmDiffCounts (bm.map (fun m => m.name)) (hm.map (fun m => m.name)) changes
  | .Message bf, .Message hf =>
    symmDiffCounts (bf.map (fun f => f.name)) (hf.map (fun f => f.name)) changes
  | .Enum bv, .Enum hv =>
    symmDiffCounts (bv.map (fun v => v.name)) (hv.map (fun v => v.name)) changes
  | _, _ => True

/-- The edges contributed by one top-level message's fields (the edge component of
`create_message_edges` does not depend on the node list passed in). -/
def messageFieldEdges (a : Analyzer) (m : DescriptorProto) (package : String) : List Edge :=
  (createMessageEdges a m package []).1

/-- Node provenance: the node was emitted for a top-level message of an internal file. -/
def nodeFromInternalMessage (fds : FileDescriptorSet) (n : Node) : Prop :=
  ∃ f ∈ fds.file, isExternalFile (f.name.getD "") = false ∧
    ∃ m ∈ f.messageType, ∃ mn, m.name = some mn ∧
      n.id = generateNodeId (f.package.getD "") mn ∧ n.nodeType = .Message

/-- Node provenance: the node was emitted for a top-level enum of an internal file. -/
def nodeFromInternalEnum (fds : FileDescriptorSet) (n : Node) : Prop :=
  ∃ f ∈ fds.file, isExternalFile (f.name.getD "") = false ∧
    ∃ e ∈ f.enumType, ∃ en, e.name = some en ∧
      n.id = generateNodeId (f.package.getD "") en ∧ n.nodeType = .Enum

/-- Node provenance: the node was emitted for a top-level service of any file. -/
def nodeFromServiceDecl (fds : FileDescriptorSet) (n : Node) : Prop :=
  ∃ f ∈ fds.file, ∃ s ∈ f.service, ∃ sn, s.name = some sn ∧
    n.id = generateNodeId (f.package.getD "") sn ∧ n.nodeType = .Service

/-- C3's amended transformation: drop the top-level declarations that lack a name. -/
def fileDropUnnamed (f : FileDescriptorProto) : FileDescriptorProto :=
  { f with messageType := f.messageType.filter (fun m => m.name.isSome)
           enumType := f.enumType.filter (fun e => e.name.isSome)
           service := f.service.filter (fun s => s.name.isSome) }

def dropUnnamedDecls (fds : FileDescriptorSet) : FileDescriptorSet :=
  ⟨fds.file.map fileDropUnnamed⟩

/-! ### Concrete descriptor inputs used by the counterexamples and witnesses -/

/-- An external file declaring `google.protobuf.Timestamp`. -/
def exTimestampFile : FileDescriptorProto :=
  { name := some "google/protobuf/timestamp.proto"
    package := some "google.protobuf"
    messageType := [.mk (some "Timestamp") [] [] []]
    enumType := []
    service := [] }

/-- A field referencing the external Timestamp type. -/
def exCreatedAtField : FieldDescriptorProto :=
  { name := some "created_at", number := some 1, fieldType := some 11,
    typeName := some ".google.protobuf.Timestamp", label := none }

/-- A message with one field referencing the external Timestamp type. -/
def exExtUserMessage : DescriptorProto :=
  .mk (some "User") [exCreatedAtField] [] []

/-- An internal file whose message has a field referencing the external Timestamp. -/
def exUserFileMsg : FileDescriptorProto :=
  { name := some "user/v1/user.proto"
    package := some "user.v1"
    messageType := [exExtUserMessage]
    enumType := []
    service := [] }

/-- The external-reference scenario of the spec (C4). -/
def exExternalRef : FileDescriptorSet :=
  ⟨[exTimestampFile, exUserFileMsg]⟩

/-- An internal service whose method input and output types are external. -/
def exSvcFile : FileDescriptorProto :=
  { name := some "user/v1/clock.proto"
    package := some "user.v1"
    messageType := []
    enumType := []
    service := [{ name := some "Clock"
                  method := [{ name := some "Now"
                               inputType := some ".google.protobuf.Timestamp"
                               outputType := some ".google.protobuf.Timestamp" }] }] }

/-- C1's counterexample input: a service edge to an external type that is never
synthesized as a node. -/
def exDangling : FileDescriptorSet :=
  ⟨[exTimestampFile, exSvcFile]⟩

/-- C2's failing input, first call. -/
def exStaleA : FileDescriptorSet :=
  ⟨[exTimestampFile]⟩

/-- C2's failing input, second call. -/
def exStaleB : FileDescriptorSet :=
  ⟨[exUserFileMsg]⟩

/-- C3's counterexample input: a file without a name containing a named message. -/
def exNamelessFile : FileDescriptorSet :=
  ⟨[{ name := none, package := none
      messageType := [.mk (some "M") [] [] []], enumType := [], service := [] }]⟩

/-- C10's counterexample input: an external file declaring a service. -/
def exExtService : FileDescriptorSet :=
  ⟨[{ name := some "google/x/api.proto", package := some "google.x"
      messageType := [], enumType := []
      service := [{ name := some "S", method := [] }] }]⟩

/-- The `status` field of the scenario's `User` message. -/
def exStatusField : FieldDescriptorProto :=
  { name := some "status", number := some 2, fieldType := some 14,
    typeName := some ".user.v1.UserStatus", label := none }

/-- The scenario's `User` message. -/
def exUserMessage : DescriptorProto :=
  .mk (some "User")
    [{ name := some "id", number := some 1, fieldType := some 9,
       typeName := none, label := none },
     exStatusField] [] []

/-- The single file of the `user/v1` scenario. -/
def exUserV1File : FileDescriptorProto :=
  { name := some "user/v1/user.proto", package := some "user.v1"
    messageType :=
      [.mk (some "GetUserRequest")
         [{ name := some "user_id", number := some 1, fieldType := some 9,
            typeName := none, label := none }] [] [],
       exUserMessage]
    enumType := [{ name := some "UserStatus"
                   value := [{ name := some "UNKNOWN", number := some 0 },
                             { name := some "ACTIVE", number := some 1 }] }]
    service := [{ name := some "UserService"
                  method := [{ name := some "GetUser"
                               inputType := some ".user.v1.GetUserRequest"
                               outputType := some ".user.v1.User" }] }] }

/-- The full `user/v1` scenario of the spec, used as a witness input. -/
def exUserV1 : FileDescriptorSet :=
  ⟨[exUserV1File]⟩

/-- Base model for the diff witnesses: the scenario graph. -/
def exBaseModel : GraphModel :=
  analyze exUserV1

/-- Head model for the diff witnesses: the scenario graph with one more field on
`user.v1.User` and one message dropped. -/
def exHeadModel : GraphModel :=
  { nodes :=
      [⟨"user.v1.User", .Message, "user.v1", "User", "user/v1/user.proto",
        .Message [⟨"id", 1, "string", "optional"⟩, ⟨"email", 2, "string", "optional"⟩]⟩,
       ⟨"user.v1.NewMessage", .Message, "user.v1", "NewMessage", "user/v1/user.proto",
        .Message []⟩]
    edges := []
    packages := [] }

/-- The `user.v1.User` node of the base scenario model, spelled out. -/
def exUserBaseNode : Node :=
  ⟨"user.v1.User", .Message, "user.v1", "User", "user/v1/user.proto",
    .Message [⟨"id", 1, "string", "optional"⟩, ⟨"status", 2, "UserStatus", "optional"⟩]⟩

/-- The `user.v1.User` node of the head scenario model, spelled out. -/
def exUserHeadNode : Node :=
  ⟨"user.v1.User", .Message, "user.v1", "User", "user/v1/user.proto",
    .Message [⟨"id", 1, "string", "optional"⟩, ⟨"email", 2, "string", "optional"⟩]⟩

/-! ### Generic fold and list lemmas -/

theorem foldl_preserve {σ α : Type _} {P : σ → Prop} {step : σ → α → σ} :
    ∀ (l : List α) (st : σ), (∀ st x, x ∈ l → P st → P (step st x)) → P st →
      P (l.foldl step st) := by
  intro l
  induction l with
  | nil => intro st _ h; simpa using h
  | cons y ys ih =>
    intro st hstep h
    simp only [List.foldl_cons]
    exact ih _ (fun st x hx => hstep st x (by simp [hx])) (hstep st y (by simp) h)

theorem foldl_intro {σ α : Type _} {P : σ → Prop} {step : σ → α → σ} {x : α} :
    ∀ (l : List α), x ∈ l → (∀ st y, y ∈ l → P st → P (step st y)) →
      (∀ st, P (step st x)) → ∀ st, P (l.foldl step st) := by
  intro l
  induction l with
  | nil => intro hx; cases hx
  | cons y ys ih =>
    intro hx hstep hintro st
    simp only [List.foldl_cons]
    rcases List.mem_cons.mp hx with rfl | hx'
    · exact foldl_preserve ys _ (fun st z hz => hstep st z (by simp [hz])) (hintro st)
    · exact ih hx' (fun st z hz => hstep st z (by simp [hz])) hintro _

theorem foldl_filter {σ α : Type _} (step : σ → α → σ) (p : α → Bool)
    (h : ∀ st x, p x = false → step st x = st) :
    ∀ (l : List α) (st : σ), (l.filter p).foldl step st = l.foldl step st := by
  intro l
  induction l with
  | nil => intro st; rfl
  | cons y ys ih =>
    intro st
    by_cases hp : p y = true
    · simp [List.filter_cons, hp, ih]
    · have hp' : p y = false := by simpa using hp
      simp [List.filter_cons, hp', ih, h st y hp']

theorem mem_insertLeB {α : Type _} {le : α → α → Bool} {x y : α} :
    ∀ {l : List α}, x ∈ insertLeB le y l ↔ x = y ∨ x ∈ l := by
  intro l
  induction l with
  | nil => simp [insertLeB]
  | cons z zs ih =>
    by_cases h : le y z
    · simp [insertLeB, h]
    · simp [insertLeB, h, ih]
      tauto

theorem mem_sortLeB {α : Type _} {le : α → α → Bool} {x : α} :
    ∀ {l : List α}, x ∈ sortLeB le l ↔ x ∈ l := by
  intro l
  induction l with
  | nil => simp [sortLeB]
  | cons z zs ih =>
    simp only [sortLeB, List.foldr_cons, List.mem_cons]
    rw [mem_insertLeB]
    exact or_congr Iff.rfl ih

theorem mem_distinctNames_aux {x : String} :
    ∀ (l acc : List String),
      x ∈ l.foldl (fun acc n => if n ∈ acc then acc else acc ++ [n]) acc ↔
        x ∈ acc ∨ x ∈ l := by
  intro l
  induction l with
  | nil => intro acc; simp
  | cons y ys ih =>
    intro acc
    simp only [List.foldl_cons]
    by_cases hy : y ∈ acc
    · rw [if_pos hy, ih]
      constructor
      · rintro (h | h)
        · exact Or.inl h
        · exact Or.inr (by simp [h])
      · rintro (h | h)
        · exact Or.inl h
        · rcases List.mem_cons.mp h with rfl | h'
          · exact Or.inl hy
          · exact Or.inr h'
    · rw [if_neg hy, ih]
      simp only [List.mem_append, List.mem_singleton, List.mem_cons]
      tauto

theorem mem_distinctNames {x : String} {l : List String} :
    x ∈ distinctNames l ↔ x ∈ l := by
  unfold distinctNames
  rw [mem_distinctNames_aux]
  simp

theorem nodup_distinctNames (l : List String) : (distinctNames l).Nodup := by
  unfold distinctNames
  have : ∀ (l acc : List String), acc.Nodup →
      (l.foldl (fun acc n => if n ∈ acc then acc else acc ++ [n]) acc).Nodup := by
    intro l
    induction l with
    | nil => intro acc h; simpa using h
    | cons y ys ih =>
      intro acc h
      simp only [List.foldl_cons]
      by_cases hy : y ∈ acc
      · rw [if_pos hy]; exact ih acc h
      · rw [if_neg hy]
        refine ih _ ?_
        simp [List.nodup_append, h, hy]
  exact this l [] (by simp)

theorem count_nodup {l : List String} {a : String} (h : l.Nodup) :
    l.count a = if a ∈ l then 1 else 0 := by
  by_cases ha : a ∈ l
  · rw [if_pos ha]
    exact List.count_eq_one_of_mem h ha
  · rw [if_neg ha]
    exact List.count_eq_zero_of_not_mem ha

theorem lookup_some_mem {β : Type _} {k : String} {v : β} :
    ∀ {l : List (String × β)}, l.lookup k = some v → (k, v) ∈ l := by
  intro l
  induction l with
  | nil => intro h; simp [List.lookup] at h
  | cons p t ih =>
    intro h
    rw [List.lookup] at h
    by_cases hk : k == p.1
    · simp only [hk] at h
      obtain rfl : p.2 = v := by simpa using h
      have : k = p.1 := by simpa using hk
      subst this
      exact List.mem_cons_self _ _
    · simp only [Bool.not_eq_true] at hk
      rw [hk] at h
      exact List.mem_cons_of_mem _ (ih h)

theorem lookup_isSome_iff {β : Type _} {k : String} :
    ∀ {l : List (String × β)}, (l.lookup k).isSome ↔ ∃ p ∈ l, p.1 = k := by
  intro l
  induction l with
  | nil => simp [List.lookup]
  | cons p t ih =>
    rw [List.lookup]
    by_cases hk : k == p.1
    · have : k = p.1 := by simpa using hk
      simp [hk, this.symm]
    · simp only [Bool.not_eq_true] at hk
      rw [hk, ih]
      have hne : ¬ k = p.1 := by simpa using hk
      constructor
      · rintro ⟨q, hq, rfl⟩
        exact ⟨q, List.mem_cons_of_mem _ hq, rfl⟩
      · rintro ⟨q, hq, hq1⟩
        rcases List.mem_cons.mp hq with rfl | hq'
        · exact absurd hq1.symm hne
        · exact ⟨q, hq', hq1⟩

theorem mem_nodeMap_aux {p : String × Node} :
    ∀ (l : List Node) (acc : List (String × Node)),
      p ∈ l.foldl (fun acc n => (n.id, n) :: acc) acc ↔
        p ∈ acc ∨ ∃ n ∈ l, p = (n.id, n) := by
  intro l
  induction l with
  | nil => intro acc; simp
  | cons y ys ih =>
    intro acc
    simp only [List.foldl_cons]
    rw [ih]
    constructor
    · rintro (hp | hp)
      · rcases List.mem_cons.mp hp with rfl | hp'
        · exact Or.inr ⟨y, List.mem_cons_self _ _, rfl⟩
        · exact Or.inl hp'
      · obtain ⟨n, hn, rfl⟩ := hp
        exact Or.inr ⟨n, List.mem_cons_of_mem _ hn, rfl⟩
    · rintro (hp | ⟨n, hn, rfl⟩)
      · exact Or.inl (List.mem_cons_of_mem _ hp)
      · rcases List.mem_cons.mp hn with rfl | hn'
        · exact Or.inl (List.mem_cons_self _ _)
        · exact Or.inr ⟨n, hn', rfl⟩

theorem mem_nodeMap {p : String × Node} {m : GraphModel} :
    p ∈ nodeMap m ↔ ∃ n ∈ m.nodes, p = (n.id, n) := by
  unfold nodeMap
  rw [mem_nodeMap_aux]
  simp

theorem lookup_nodeMap {m : GraphModel} {id : String} {n : Node}
    (h : (nodeMap m).lookup id = some n) : n.id = id ∧ n ∈ m.nodes := by
  have hmem := lookup_some_mem h
  rw [mem_nodeMap] at hmem
  obtain ⟨n', hn', heq⟩ := hmem
  have h1 : id = n'.id := congrArg Prod.fst heq
  have h2 : n = n' := congrArg Prod.snd heq
  subst h2
  exact ⟨h1.symm, hn'⟩

theorem lookup_nodeMap_isSome {m : GraphModel} {id : String} :
    ((nodeMap m).lookup id).isSome ↔ id ∈ modelIds m := by
  rw [lookup_isSome_iff]
  unfold modelIds
  rw [mem_distinctNames]
  constructor
  · rintro ⟨p, hp, rfl⟩
    rw [mem_nodeMap] at hp
    obtain ⟨n, hn, rfl⟩ := hp
    exact List.mem_map.mpr ⟨n, hn, rfl⟩
  · intro h
    obtain ⟨n, hn, rfl⟩ := List.mem_map.mp h
    exact ⟨(n.id, n), mem_nodeMap.mpr ⟨n, hn, rfl⟩, rfl⟩

theorem mem_dedupEdgesAux {e : Edge} :
    ∀ {es : List Edge} {seen : List (String × String)},
      e ∈ dedupEdgesAux seen es → e ∈ es := by
  intro es
  induction es with
  | nil => intro seen h; simp [dedupEdgesAux] at h
  | cons f fs ih =>
    intro seen h
    rw [dedupEdgesAux] at h
    by_cases hs : (f.source, f.target) ∈ seen
    · rw [if_pos hs] at h
      exact List.mem_cons_of_mem _ (ih h)
    · rw [if_neg hs] at h
      rcases List.mem_cons.mp h with rfl | h'
      · exact List.mem_cons_self _ _
      · exact List.mem_cons_of_mem _ (ih h')

theorem countP_dedupEdgesAux (s t : String) :
    ∀ (es : List Edge) (seen : List (String × String)),
      (dedupEdgesAux seen es).countP (fun e => e.source == s && e.target == t) =
        if (s, t) ∈ seen then 0
        else if es.any (fun e => e.source == s && e.target == t) then 1 else 0 := by
  intro es
  induction es with
  | nil => intro seen; simp [dedupEdgesAux]
  | cons f fs ih =>
    intro seen
    have hpred : ∀ e : Edge, (e.source == s && e.target == t) = true ↔ (e.source, e.target) = (s, t) := by
      intro e
      constructor
      · intro h
        simp only [Bool.and_eq_true, beq_iff_eq] at h
        simp [h.1, h.2]
      · intro h
        have h1 : e.source = s := congrArg Prod.fst h
        have h2 : e.target = t := congrArg Prod.snd h
        simp [h1, h2]
    rw [dedupEdgesAux]
    by_cases hs : (f.source, f.target) ∈ seen
    · rw [if_pos hs, ih]
      by_cases hst : (s, t) ∈ seen
      · simp [hst]
      · rw [if_neg hst, if_neg hst]
        have hf : (f.source == s && f.target == t) = false := by
          by_contra hc
          have := (hpred f).mp (by simpa using hc)
          exact hst (this ▸ hs)
        simp [List.any_cons, hf]
    · rw [if_neg hs]
      rw [List.countP_cons]
      rw [ih]
      by_cases hf : (f.source == s && f.target == t) = true
      · have hft : (f.source, f.target) = (s, t) := (hpred f).mp hf
        have hseen' : (s, t) ∈ (f.source, f.target) :: seen := by simp [hft]
        rw [if_pos hseen']
        have hst : (s, t) ∉ seen := fun hc => hs (hft ▸ hc)
        rw [if_neg hst]
        simp [List.any_cons, hf]
      · have hf' : (f.source == s && f.target == t) = false := by simpa using hf
        have hne : (s, t) ≠ (f.source, f.target) := by
          intro hc
          exact hf ((hpred f).mpr hc.symm)
        have hmemiff : ((s, t) ∈ (f.source, f.target) :: seen) ↔ (s, t) ∈ seen := by
          simp [List.mem_cons, hne]
        rw [if_congr hmemiff rfl rfl]
        by_cases hst : (s, t) ∈ seen
        · simp [hst, hf']
        · simp [hst, List.any_cons, hf']

/-! ### Characterisation of the per-kind name-set diff -/

theorem find?_name_some {β : Type _} (items : List β) (nameOf : β → String) {n : String}
    (h : n ∈ items.map nameOf) :
    ∃ x, items.find? (fun x => nameOf x == n) = some x ∧ nameOf x = n := by
  obtain ⟨x, hx, rfl⟩ := List.mem_map.mp h
  have hsome : (items.find? (fun x' => nameOf x' == nameOf x)).isSome :=
    List.find?_isSome.mpr ⟨x, hx, by simp⟩
  obtain ⟨y, hy⟩ := Option.isSome_iff_exists.mp hsome
  exact ⟨y, hy, by simpa using List.find?_some hy⟩

theorem filterMap_extract_pick {β : Type _} {items : List β} {nameOf : β → String}
    {mk : β → Change} {extract : Change → Option String}
    (hx : ∀ b, extract (mk b) = some (nameOf b)) :
    ∀ {names : List String}, (∀ n ∈ names, n ∈ items.map nameOf) →
      ((names.filterMap (fun n => (items.find? (fun x => nameOf x == n)).map mk)).filterMap
        extract) = names := by
  intro names
  induction names with
  | nil => intro _; rfl
  | cons n ns ih =>
    intro hsub
    obtain ⟨x, hfind, hname⟩ := find?_name_some items nameOf (hsub n (by simp))
    rw [List.filterMap_cons, hfind, Option.map_some']
    rw [List.filterMap_cons, hx x, hname]
    rw [ih (fun m hm => hsub m (by simp [hm]))]

theorem filterMap_extract_other {β : Type _} {items : List β} {nameOf : β → String}
    {mk : β → Change} {extract : Change → Option String}
    (hx : ∀ b, extract (mk b) = none) (names : List String) :
    ((names.filterMap (fun n => (items.find? (fun x => nameOf x == n)).map mk)).filterMap
      extract) = [] := by
  rw [List.filterMap_eq_nil_iff]
  intro c hc
  obtain ⟨m, _, hcm⟩ := List.mem_filterMap.mp hc
  obtain ⟨x, _, rfl⟩ := Option.map_eq_some'.mp hcm
  exact hx x

theorem nameDiff_spec {β : Type _} (bItems hItems : List β) (nameOf : β → String)
    (mkA mkR : β → Change)
    (hA : ∀ b, addedChangeName (mkA b) = some (nameOf b))
    (hAR : ∀ b, addedChangeName (mkR b) = none)
    (hRA : ∀ b, removedChangeName (mkA b) = none)
    (hR : ∀ b, removedChangeName (mkR b) = some (nameOf b)) :
    ((((distinctNames (hItems.map nameOf)).filter
          (fun n => !decide (n ∈ bItems.map nameOf))).filterMap
        (fun n => (hItems.find? (fun x => nameOf x == n)).map mkA) ++
      ((distinctNames (bItems.map nameOf)).filter
          (fun n => !decide (n ∈ hItems.map nameOf))).filterMap
        (fun n => (bItems.find? (fun x => nameOf x == n)).map mkR)) = [] ↔
      sameNameSet (bItems.map nameOf) (hItems.map nameOf))
    ∧ symmDiffCounts (bItems.map nameOf) (hItems.map nameOf)
      ((((distinctNames (hItems.map nameOf)).filter
            (fun n => !decide (n ∈ bItems.map nameOf))).filterMap
          (fun n => (hItems.find? (fun x => nameOf x == n)).map mkA) ++
        ((distinctNames (bItems.map nameOf)).filter
            (fun n => !decide (n ∈ hItems.map nameOf))).filterMap
          (fun n => (bItems.find? (fun x => nameOf x == n)).map mkR))) := by
  set bnames := bItems.map nameOf with hbn
  set hnames := hItems.map nameOf with hhn
  set namesA := (distinctNames hnames).filter (fun n => !decide (n ∈ bnames)) with hnA
  set namesR := (distinctNames bnames).filter (fun n => !decide (n ∈ hnames)) with hnR
  set partA := namesA.filterMap (fun n => (hItems.find? (fun x => nameOf x == n)).map mkA)
    with hpA
  set partR := namesR.filterMap (fun n => (bItems.find? (fun x => nameOf x == n)).map mkR)
    with hpR
  have hsubA : ∀ n ∈ namesA, n ∈ hnames := by
    intro n hn
    have := (List.mem_filter.mp hn).1
    exact mem_distinctNames.mp this
  have hsubR : ∀ n ∈ namesR, n ∈ bnames := by
    intro n hn
    have := (List.mem_filter.mp hn).1
    exact mem_distinctNames.mp this
  have hextA : partA.filterMap addedChangeName = namesA :=
    filterMap_extract_pick hA hsubA
  have hextR : partR.filterMap removedChangeName = namesR :=
    filterMap_extract_pick hR hsubR
  have hextA0 : partR.filterMap addedChangeName = [] :=
    filterMap_extract_other hAR namesR
  have hextR0 : partA.filterMap removedChangeName = [] :=
    filterMap_extract_other hRA namesA
  have hmemA : ∀ n, n ∈ namesA ↔ (n ∈ hnames ∧ n ∉ bnames) := by
    intro n
    rw [hnA, List.mem_filter, mem_distinctNames]
    simp
  have hmemR : ∀ n, n ∈ namesR ↔ (n ∈ bnames ∧ n ∉ hnames) := by
    intro n
    rw [hnR, List.mem_filter, mem_distinctNames]
    simp
  have hndA : namesA.Nodup := List.Nodup.filter _ (nodup_distinctNames hnames)
  have hndR : namesR.Nodup := List.Nodup.filter _ (nodup_distinctNames bnames)
  constructor
  · constructor
    · intro h
      have h2 := List.append_eq_nil.mp h
      have hA' : namesA = [] := by rw [← hextA, h2.1]; rfl
      have hR' : namesR = [] := by rw [← hextR, h2.2]; rfl
      intro n
      constructor
      · intro hn
        by_contra hc
        have : n ∈ namesR := (hmemR n).mpr ⟨hn, hc⟩
        rw [hR'] at this
        cases this
      · intro hn
        by_contra hc
        have : n ∈ namesA := (hmemA n).mpr ⟨hn, hc⟩
        rw [hA'] at this
        cases this
    · intro hsame
      have hA' : namesA = [] := by
        rw [hnA, List.filter_eq_nil_iff]
        intro n hn
        have := mem_distinctNames.mp hn
        simp [(hsame n).mpr this]
      have hR' : namesR = [] := by
        rw [hnR, List.filter_eq_nil_iff]
        intro n hn
        have := mem_distinctNames.mp hn
        simp [(hsame n).mp this]
      rw [hpA, hpR, hA', hR']
      rfl
  · intro n
    constructor
    · rw [List.filterMap_append, hextA, hextA0, List.append_nil]
      rw [count_nodup hndA]
      rw [if_congr (hmemA n) rfl rfl]
    · rw [List.filterMap_append, hextR0, hextR, List.nil_append]
      rw [count_nodup hndR]
      rw [if_congr (hmemR n) rfl rfl]

theorem computeMethodChanges_spec (bm hm : List MethodSignature) :
    (computeMethodChanges bm hm = [] ↔
      sameNameSet (bm.map (fun m => m.name)) (hm.map (fun m => m.name)))
    ∧ symmDiffCounts (bm.map (fun m => m.name)) (hm.map (fun m => m.name))
      (computeMethodChanges bm hm) :=
  nameDiff_spec bm hm (fun m => m.name) Change.MethodAdded Change.MethodRemoved
    (fun _ => rfl) (fun _ => rfl) (fun _ => rfl) (fun _ => rfl)

theorem computeFieldChanges_spec (bf hf : List FieldInfo) :
    (computeFieldChanges bf hf = [] ↔
      sameNameSet (bf.map (fun f => f.name)) (hf.map (fun f => f.name)))
    ∧ symmDiffCounts (bf.map (fun f => f.name)) (hf.map (fun f => f.name))
      (computeFieldChanges bf hf) :=
  nameDiff_spec bf hf (fun f => f.name) Change.FieldAdded Change.FieldRemoved
    (fun _ => rfl) (fun _ => rfl) (fun _ => rfl) (fun _ => rfl)

theorem computeEnumChanges_spec (bv hv : List EnumValue) :
    (computeEnumChanges bv hv = [] ↔
      sameNameSet (bv.map (fun v => v.name)) (hv.map (fun v => v.name)))
    ∧ symmDiffCounts (bv.map (fun v => v.name)) (hv.map (fun v => v.name))
      (computeEnumChanges bv hv) :=
  nameDiff_spec bv hv (fun v => v.name) Change.EnumValueAdded Change.EnumValueRemoved
    (fun _ => rfl) (fun _ => rfl) (fun _ => rfl) (fun _ => rfl)

theorem computeNodeChanges_self (n : Node) : computeNodeChanges n n = none := by
  unfold computeNodeChanges
  cases hd : n.details with
  | Service ms msgs =>
    have h := (computeMethodChanges_spec ms ms).1.mpr (fun _ => Iff.rfl)
    simp [h]
  | Message fs =>
    have h := (computeFieldChanges_spec fs fs).1.mpr (fun _ => Iff.rfl)
    simp [h]
  | Enum vs =>
    have h := (computeEnumChanges_spec vs vs).1.mpr (fun _ => Iff.rfl)
    simp [h]
  | External => simp

theorem computeNodeChanges_some {bn hn : Node} {it : ModifiedItem}
    (h : computeNodeChanges bn hn = some it) :
    it.nodeId = hn.id ∧ it.changes ≠ [] ∧ claimChangeCounts bn hn it.changes := by
  unfold computeNodeChanges at h
  cases hb : bn.details <;> cases hh : hn.details <;> rw [hb, hh] at h <;>
    simp only [] at h
  case Service.Service bm bmsgs hm hmsgs =>
    by_cases he : (computeMethodChanges bm hm).isEmpty
    · rw [if_pos he] at h; cases h
    · rw [if_neg he] at h
      rw [Option.some_inj] at h
      subst h
      refine ⟨rfl, ?_, ?_⟩
      · show computeMethodChanges bm hm ≠ []
        intro hc
        rw [hc] at he
        exact he rfl
      · show claimChangeCounts bn hn (computeMethodChanges bm hm)
        unfold claimChangeCounts
        rw [hb, hh]
        exact (computeMethodChanges_spec bm hm).2
  case Message.Message bf hf =>
    by_cases he : (computeFieldChanges bf hf).isEmpty
    · rw [if_pos he] at h; cases h
    · rw [if_neg he] at h
      rw [Option.some_inj] at h
      subst h
      refine ⟨rfl, ?_, ?_⟩
      · show computeFieldChanges bf hf ≠ []
        intro hc
        rw [hc] at he
        exact he rfl
      · show claimChangeCounts bn hn (computeFieldChanges bf hf)
        unfold claimChangeCounts
        rw [hb, hh]
        exact (computeFieldChanges_spec bf hf).2
  case Enum.Enum bv hv =>
    by_cases he : (computeEnumChanges bv hv).isEmpty
    · rw [if_pos he] at h; cases h
    · rw [if_neg he] at h
      rw [Option.some_inj] at h
      subst h
      refine ⟨rfl, ?_, ?_⟩
      · show computeEnumChanges bv hv ≠ []
        intro hc
        rw [hc] at he
        exact he rfl
      · show claimChangeCounts bn hn (computeEnumChanges bv hv)
        unfold claimChangeCounts
        rw [hb, hh]
        exact (computeEnumChanges_spec bv hv).2
  all_goals simp at h

theorem computeNodeChanges_isSome_iff (bn hn : Node) :
    (∃ it, computeNodeChanges bn hn = some it) ↔ claimModifiedCondition bn hn := by
  unfold computeNodeChanges claimModifiedCondition
  cases hb : bn.details <;> cases hh : hn.details <;> simp only []
  case Service.Service bm bmsgs hm hmsgs =>
    by_cases he : (computeMethodChanges bm hm).isEmpty
    · rw [if_pos he]
      have : computeMethodChanges bm hm = [] := by
        cases hc : computeMethodChanges bm hm
        · rfl
        · rw [hc] at he; cases he
      simp [(computeMethodChanges_spec bm hm).1.mp this]
    · rw [if_neg he]
      have hne : ¬ computeMethodChanges bm hm = [] := by
        intro hc; rw [hc] at he; exact he rfl
      constructor
      · intro _ hs
        exact hne ((computeMethodChanges_spec bm hm).1.mpr hs)
      · intro _
        exact ⟨_, rfl⟩
  case Message.Message bf hf =>
    by_cases he : (computeFieldChanges bf hf).isEmpty
    · rw [if_pos he]
      have : computeFieldChanges bf hf = [] := by
        cases hc : computeFieldChanges bf hf
        · rfl
        · rw [hc] at he; cases he
      simp [(computeFieldChanges_spec bf hf).1.mp this]
    · rw [if_neg he]
      have hne : ¬ computeFieldChanges bf hf = [] := by
        intro hc; rw [hc] at he; exact he rfl
      constructor
      · intro _ hs
        exact hne ((computeFieldChanges_spec bf hf).1.mpr hs)
      · intro _
        exact ⟨_, rfl⟩
  case Enum.Enum bv hv =>
    by_cases he : (computeEnumChanges bv hv).isEmpty
    · rw [if_pos he]
      have : computeEnumChanges bv hv = [] := by
        cases hc : computeEnumChanges bv hv
        · rfl
        · rw [hc] at he; cases he
      simp [(computeEnumChanges_spec bv hv).1.mp this]
    · rw [if_neg he]
      have hne : ¬ computeEnumChanges bv hv = [] := by
        intro hc; rw [hc] at he; exact he rfl
      constructor
      · intro _ hs
        exact hne ((computeEnumChanges_spec bv hv).1.mpr hs)
      · intro _
        exact ⟨_, rfl⟩
  all_goals simp

theorem nodeMap_kv {m : GraphModel} : ∀ p ∈ nodeMap m, p.2.id = p.1 := by
  intro p hp
  obtain ⟨n, _, rfl⟩ := mem_nodeMap.mp hp
  rfl

theorem collectDiffItems_allIds {ids : List String} {nodes : List (String × Node)}
    (hkv : ∀ p ∈ nodes, p.2.id = p.1) :
    ∀ i ∈ (collectDiffItems ids nodes).allIds, i ∈ ids := by
  intro i hi
  unfold DiffItems.allIds at hi
  obtain ⟨dn, hdn, rfl⟩ := List.mem_map.mp hi
  unfold collectDiffItems at hdn
  simp only [List.mem_append, mem_sortLeB] at hdn
  have key := @foldl_preserve DiffItems String
    (fun (it : DiffItems) =>
      ∀ d, (d ∈ it.services ∨ d ∈ it.messages ∨ d ∈ it.enums) → d.id ∈ ids)
    (fun (it : DiffItems) id =>
      match nodes.lookup id with
      | some n =>
        match n.nodeType with
        | .Service => { it with services := it.services ++ [DiffNode.ofNode n] }
        | .Message => { it with messages := it.messages ++ [DiffNode.ofNode n] }
        | .Enum => { it with enums := it.enums ++ [DiffNode.ofNode n] }
        | .External => it
      | none => it)
    ids DiffItems.empty ?_ ?_
  · rcases hdn with (hmm | hmm) | hmm
    · exact key dn (Or.inl hmm)
    · exact key dn (Or.inr (Or.inl hmm))
    · exact key dn (Or.inr (Or.inr hmm))
  · intro st x hx hst d hd
    cases hl : nodes.lookup x with
    | none =>
      simp only [hl] at hd
      exact hst d hd
    | some n =>
      have hnid : n.id = x := by
        have := hkv (x, n) (lookup_some_mem hl)
        simpa using this
      simp only [hl] at hd
      cases ht : n.nodeType <;> simp only [ht] at hd
      · rcases hd with hd | hd | hd
        · rcases List.mem_append.mp hd with hd' | hd'
          · exact hst d (Or.inl hd')
          · have : d = DiffNode.ofNode n := by simpa using hd'
            rw [this]
            show n.id ∈ ids
            rw [hnid]; exact hx
        · exact hst d (Or.inr (Or.inl hd))
        · exact hst d (Or.inr (Or.inr hd))
      · rcases hd with hd | hd | hd
        · exact hst d (Or.inl hd)
        · rcases List.mem_append.mp hd with hd' | hd'
          · exact hst d (Or.inr (Or.inl hd'))
          · have : d = DiffNode.ofNode n := by simpa using hd'
            rw [this]
            show n.id ∈ ids
            rw [hnid]; exact hx
        · exact hst d (Or.inr (Or.inr hd))
      · rcases hd with hd | hd | hd
        · exact hst d (Or.inl hd)
        · exact hst d (Or.inr (Or.inl hd))
        · rcases List.mem_append.mp hd with hd' | hd'
          · exact hst d (Or.inr (Or.inr hd'))
          · have : d = DiffNode.ofNode n := by simpa using hd'
            rw [this]
            show n.id ∈ ids
            rw [hnid]; exact hx
      · exact hst d hd
  · intro d hd
    rcases hd with hd | hd | hd <;> cases hd

theorem mem_compute_modified {base head : GraphModel} {it : ModifiedItem}
    (h : it ∈ (DiffReport.compute base head).modified) :
    it.nodeId ∈ modelIds base ∧ it.nodeId ∈ modelIds head ∧ it.changes ≠ [] ∧
      ∃ bn hn, (nodeMap base).lookup it.nodeId = some bn ∧
        (nodeMap head).lookup it.nodeId = some hn ∧
        computeNodeChanges bn hn = some it := by
  simp only [DiffReport.compute] at h
  rw [mem_sortLeB] at h
  obtain ⟨id, hid, hf⟩ := List.mem_filterMap.mp h
  have hid' := List.mem_filter.mp hid
  have hidb : id ∈ modelIds base := hid'.1
  have hidh : id ∈ modelIds head := by simpa using hid'.2
  cases hbl : (nodeMap base).lookup id with
  | none => rw [hbl] at hf; cases hhl : (nodeMap head).lookup id <;> rw [hhl] at hf <;> cases hf
  | some bn =>
    cases hhl : (nodeMap head).lookup id with
    | none => rw [hbl, hhl] at hf; cases hf
    | some hn =>
      rw [hbl, hhl] at hf
      simp only [] at hf
      have hprops := computeNodeChanges_some hf
      have hhid : hn.id = id := (lookup_nodeMap hhl).1
      have hnodeid : it.nodeId = id := by rw [hprops.1, hhid]
      rw [hnodeid]
      exact ⟨hidb, hidh, hprops.2.1, bn, hn, hbl, hhl, hf⟩

theorem mem_compute_added {base head : GraphModel} {i : String}
    (h : i ∈ (DiffReport.compute base head).added.allIds) :
    i ∈ modelIds head ∧ i ∉ modelIds base := by
  simp only [DiffReport.compute] at h
  have hsub := collectDiffItems_allIds (nodeMap_kv (m := head)) i h
  have h2 := List.mem_filter.mp hsub
  exact ⟨h2.1, by simpa using h2.2⟩

theorem mem_compute_removed {base head : GraphModel} {i : String}
    (h : i ∈ (DiffReport.compute base head).removed.allIds) :
    i ∈ modelIds base ∧ i ∉ modelIds head := by
  simp only [DiffReport.compute] at h
  have hsub := collectDiffItems_allIds (nodeMap_kv (m := base)) i h
  have h2 := List.mem_filter.mp hsub
  exact ⟨h2.1, by simpa using h2.2⟩

/-- C5: for every GraphModel `g`, `DiffReport::compute(g, g)` yields a report whose
added, removed and modified collections are all empty and whose `has_changes()`
returns `false`. -/
theorem c5_diff_self_empty (g : GraphModel) :
    (DiffReport.compute g g).added = DiffItems.empty ∧
    (DiffReport.compute g g).removed = DiffItems.empty ∧
    (DiffReport.compute g g).modified = [] ∧
    (DiffReport.compute g g).hasChanges = false := by
  have h1 : (modelIds g).filter (fun i => !decide (i ∈ modelIds g)) = [] := by
    rw [List.filter_eq_nil_iff]
    intro a ha
    simp [ha]
  have h2 : ((modelIds g).filter (fun i => decide (i ∈ modelIds g))).filterMap
      (fun id =>
        match (nodeMap g).lookup id, (nodeMap g).lookup id with
        | some bn, some hn => computeNodeChanges bn hn
        | _, _ => none) = [] := by
    rw [List.filterMap_eq_nil_iff]
    intro id _
    cases hl : (nodeMap g).lookup id
    · rfl
    · simpa using computeNodeChanges_self _
  have heq : DiffReport.compute g g = ⟨DiffItems.empty, DiffItems.empty, []⟩ := by
    simp only [DiffReport.compute]
    rw [h1, h2]
    rfl
  rw [heq]
  exact ⟨rfl, rfl, rfl, rfl⟩

/-- C6: in every computed DiffReport a node id appears in at most one of added,
removed and modified, and an id appears in modified only with at least one
atomic change. -/
theorem c6_partition (base head : GraphModel) (i : String) :
    (¬(i ∈ (DiffReport.compute base head).added.allIds ∧
        i ∈ (DiffReport.compute base head).removed.allIds)) ∧
    (¬(i ∈ (DiffReport.compute base head).added.allIds ∧
        ∃ it ∈ (DiffReport.compute base head).modified, it.nodeId = i)) ∧
    (¬(i ∈ (DiffReport.compute base head).removed.allIds ∧
        ∃ it ∈ (DiffReport.compute base head).modified, it.nodeId = i)) ∧
    (∀ it ∈ (DiffReport.compute base head).modified, it.changes ≠ []) := by
  refine ⟨?_, ?_, ?_, ?_⟩
  · rintro ⟨ha, hr⟩
    exact (mem_compute_added ha).2 (mem_compute_removed hr).1
  · rintro ⟨ha, it, hit, rfl⟩
    exact (mem_compute_added ha).2 (mem_compute_modified hit).1
  · rintro ⟨hr, it, hit, rfl⟩
    exact (mem_compute_removed hr).2 (mem_compute_modified hit).2.1
  · intro it hit
    exact (mem_compute_modified hit).2.2.1

/-- C6 witness: the partition property instantiated on the concrete diff of the
scenario models at id `user.v1.User`. -/
theorem c6_partition_witness :
    (¬("user.v1.User" ∈ (DiffReport.compute exBaseModel exHeadModel).added.allIds ∧
        "user.v1.User" ∈ (DiffReport.compute exBaseModel exHeadModel).removed.allIds)) ∧
    (¬("user.v1.User" ∈ (DiffReport.compute exBaseModel exHeadModel).added.allIds ∧
        ∃ it ∈ (DiffReport.compute exBaseModel exHeadModel).modified, it.nodeId = "user.v1.User")) ∧
    (¬("user.v1.User" ∈ (DiffReport.compute exBaseModel exHeadModel).removed.allIds ∧
        ∃ it ∈ (DiffReport.compute exBaseModel exHeadModel).modified, it.nodeId = "user.v1.User")) ∧
    (∀ it ∈ (DiffReport.compute exBaseModel exHeadModel).modified, it.changes ≠ []) :=
  c6_partition exBaseModel exHeadModel "user.v1.User"

/-- C7: for a node id present in both graphs, a modified record exists exactly when
the two nodes' detail kinds match and the corresponding name sets differ, and any
such record carries exactly one added entry per name only in head and one removed
entry per name only in base (payload drift on same-named items and kind mismatches
produce no record). -/
theorem c7_modified_exactness (base head : GraphModel) (id : String) (bn hn : Node)
    (hb : (nodeMap base).lookup id = some bn) (hh : (nodeMap head).lookup id = some hn) :
    ((∃ it ∈ (DiffReport.compute base head).modified, it.nodeId = id) ↔
      claimModifiedCondition bn hn) ∧
    (∀ it ∈ (DiffReport.compute base head).modified, it.nodeId = id →
      claimChangeCounts bn hn it.changes) := by
  constructor
  · constructor
    · rintro ⟨it, hit, rfl⟩
      obtain ⟨_, _, _, bn', hn', hb', hh', hc⟩ := mem_compute_modified hit
      have hbe : bn' = bn := Option.some.inj (hb'.symm.trans hb)
      have hhe : hn' = hn := Option.some.inj (hh'.symm.trans hh)
      subst hbe
      subst hhe
      exact (computeNodeChanges_isSome_iff bn' hn').mp ⟨it, hc⟩
    · intro hcond
      obtain ⟨it, hc⟩ := (computeNodeChanges_isSome_iff bn hn).mpr hcond
      have hmemb : id ∈ modelIds base := by
        have : ((nodeMap base).lookup id).isSome := by rw [hb]; rfl
        exact lookup_nodeMap_isSome.mp this
      have hmemh : id ∈ modelIds head := by
        have : ((nodeMap head).lookup id).isSome := by rw [hh]; rfl
        exact lookup_nodeMap_isSome.mp this
      refine ⟨it, ?_, ?_⟩
      · simp only [DiffReport.compute]
        rw [mem_sortLeB]
        refine List.mem_filterMap.mpr ⟨id, ?_, ?_⟩
        · exact List.mem_filter.mpr ⟨hmemb, by simpa using hmemh⟩
        · rw [hb, hh]
          exact hc
      · rw [(computeNodeChanges_some hc).1, (lookup_nodeMap hh).1]
  · intro it hit hid
    obtain ⟨_, _, _, bn', hn', hb', hh', hc⟩ := mem_compute_modified hit
    rw [hid] at hb' hh'
    have hbe : bn' = bn := Option.some.inj (hb'.symm.trans hb)
    have hhe : hn' = hn := Option.some.inj (hh'.symm.trans hh)
    subst hbe
    subst hhe
    exact (computeNodeChanges_some hc).2.2

/-- C7 witness: the characterisation instantiated on the scenario models at id
`user.v1.User`, whose field name sets differ between base and head. -/
theorem c7_modified_exactness_witness :
    ((∃ it ∈ (DiffReport.compute exBaseModel exHeadModel).modified,
        it.nodeId = "user.v1.User") ↔
      claimModifiedCondition exUserBaseNode exUserHeadNode) ∧
    (∀ it ∈ (DiffReport.compute exBaseModel exHeadModel).modified,
      it.nodeId = "user.v1.User" →
      claimChangeCounts exUserBaseNode exUserHeadNode it.changes) :=
  c7_modified_exactness exBaseModel exHeadModel "user.v1.User" exUserBaseNode exUserHeadNode
    (by decide) (by decide)

/-- C2: evaluating `analyze` at the failing input pair: analysing `exStaleB` on an
Analyzer previously used for `exStaleA` yields a different GraphModel than a
freshly constructed Analyzer does, because the resolution maps persist in the
struct across calls instead of being discarded. -/
theorem c2_state_leak :
    (analyzeWith (analyzeWith Analyzer.new exStaleA).2 exStaleB).1 ≠
      (analyzeWith Analyzer.new exStaleB).1 := by
  decide

/-- C1 counterexample: on `exDangling` the built model contains an edge (from a
service method to an externally defined input type) whose target id matches no
node in the model — a dangling edge. -/
theorem c1_counterexample :
    ((analyze exDangling).edges.any
      (fun e => !(analyze exDangling).nodes.any (fun n => n.id == e.target))) = true := by
  decide

/-- C3 counterexample: the file of `exNamelessFile` lacks a name, yet its named
message still contributes a node (with empty file path) to the built model. -/
theorem c3_counterexample :
    (analyze exNamelessFile).nodes.map (fun n => n.id) = ["M"] ∧
    (analyze exNamelessFile).nodes ≠ [] := by
  constructor
  · decide
  · decide

/-- C4 counterexample: on the external-reference scenario no node carries the
claimed synthesized file path `google/protobuf/timestamp.proto`. -/
theorem c4_counterexample :
    ((analyze exExternalRef).nodes.all
      (fun n => n.file != "google/protobuf/timestamp.proto")) = true := by
  decide

/-- C4 amended: the scenario yields exactly one External node with id
`google.protobuf.Timestamp`, package `google.protobuf`, and synthesized file path
`google/protobuf.proto` (the package with separators replaced plus the extension;
the type name is not part of the path). -/
theorem c4_amended :
    ((analyze exExternalRef).nodes.filter (fun n => n.nodeType == .External)) =
      [⟨"google.protobuf.Timestamp", .External, "google.protobuf", "Timestamp",
        "google/protobuf.proto", .External⟩] := by
  decide

/-- C10 counterexample: a service declared in an external file still becomes a
Service node, so nodes are not restricted to declarations of internal files. -/
theorem c10_counterexample :
    (analyze exExtService).nodes.map (fun n => (n.id, n.nodeType)) =
      [("google.x.S", NodeType.Service)] := by
  decide

/-! ### Lemmas about the pass-3 building blocks -/

theorem ensure_mono {n : Node} {id fq : String} {nodes : List Node}
    (h : n ∈ nodes) : n ∈ ensureExternalNode id fq nodes := by
  unfold ensureExternalNode
  split
  · exact h
  · exact List.mem_append_left _ h

theorem ensure_id_mem (id fq : String) (nodes : List Node) :
    ∃ n ∈ ensureExternalNode id fq nodes, n.id = id := by
  unfold ensureExternalNode
  split
  case isTrue h =>
    obtain ⟨n, hn, hid⟩ := List.any_eq_true.mp h
    exact ⟨n, hn, by simpa using hid⟩
  case isFalse h =>
    refine ⟨_, List.mem_append_right _ (List.mem_singleton_self _), rfl⟩

theorem ensure_provenance {id fq : String} {nodes : List Node} :
    ∀ n ∈ ensureExternalNode id fq nodes, n ∈ nodes ∨ (n.nodeType = .External ∧ n.id = id) := by
  intro n hn
  unfold ensureExternalNode at hn
  split at hn
  · exact Or.inl hn
  · rcases List.mem_append.mp hn with h | h
    · exact Or.inl h
    · have heq := List.mem_singleton.mp h
      rw [heq]
      exact Or.inr ⟨rfl, rfl⟩

theorem extIds_nodup_append {nodes : List Node} {nd : Node} (hnd : nd.nodeType = .External)
    (hid : ¬ (nodes.any (fun n' => n'.id == nd.id)) = true)
    (h : ((nodes.filter (fun n => n.nodeType == .External)).map (fun n => n.id)).Nodup) :
    (((nodes ++ [nd]).filter (fun n => n.nodeType == .External)).map (fun n => n.id)).Nodup := by
  rw [List.filter_append, List.map_append]
  have hf : (List.filter (fun n => n.nodeType == NodeType.External) [nd]) = [nd] := by
    simp [List.filter_cons, hnd]
  rw [hf]
  rw [List.nodup_append]
  refine ⟨h, List.nodup_singleton _, ?_⟩
  intro x hx hx'
  have hxid : x = nd.id := by simpa using hx'
  subst hxid
  obtain ⟨n, hn, hneq⟩ := List.mem_map.mp hx
  have hnn := List.mem_filter.mp hn
  exact hid (List.any_eq_true.mpr ⟨n, hnn.1, by simp [hneq]⟩)

theorem ensure_extIds_nodup {id fq : String} {nodes : List Node}
    (h : ((nodes.filter (fun n => n.nodeType == .External)).map (fun n => n.id)).Nodup) :
    (((ensureExternalNode id fq nodes).filter
        (fun n => n.nodeType == .External)).map (fun n => n.id)).Nodup := by
  unfold ensureExternalNode
  split
  case isTrue _ => exact h
  case isFalse hno => exact extIds_nodup_append rfl hno h

theorem source_append_singleton {edges : List Edge} {src tgt : String}
    (h : ∀ e ∈ edges, e.source = src) :
    ∀ e ∈ edges ++ [(⟨src, tgt⟩ : Edge)], e.source = src := by
  intro e he
  rcases List.mem_append.mp he with h' | h'
  · exact h e h'
  · rw [List.mem_singleton.mp h']

theorem cse_source {a : Analyzer} {s : ServiceDescriptorProto} {package : String} :
    ∀ e ∈ createServiceEdges a s package,
      ∃ sn, s.name = some sn ∧ e.source = generateNodeId package sn := by
  intro e he
  unfold createServiceEdges at he
  cases hs : s.name with
  | none => rw [hs] at he; cases he
  | some sn =>
    rw [hs] at he
    simp only [] at he
    refine ⟨sn, rfl, ?_⟩
    refine foldl_preserve
      (P := fun (edges : List Edge) => ∀ e' ∈ edges, e'.source = generateNodeId package sn)
      s.method [] ?_ ?_ e he
    · intro st m _ hst
      intro e' he'
      simp only [] at he'
      repeat' split at he'
      all_goals
        first
        | exact hst e' he'
        | exact source_append_singleton hst e' he'
        | exact source_append_singleton (source_append_singleton hst) e' he'
    · intro e' he'
      cases he'

theorem cme_nodes_mono {a : Analyzer} {m : DescriptorProto} {package : String} {n : Node}
    {nodes : List Node} (h : n ∈ nodes) : n ∈ (createMessageEdges a m package nodes).2 := by
  unfold createMessageEdges
  cases hname : m.name with
  | none => exact h
  | some mn =>
    simp only []
    refine foldl_preserve (P := fun (acc : List Edge × List Node) => n ∈ acc.2)
      m.field ([], nodes) ?_ h
    intro acc f _ hacc
    repeat' split
    all_goals
      first
      | exact hacc
      | exact ensure_mono hacc

theorem cme_source {a : Analyzer} {m : DescriptorProto} {package : String}
    {nodes : List Node} :
    ∀ e ∈ (createMessageEdges a m package nodes).1,
      ∃ mn, m.name = some mn ∧ e.source = generateNodeId package mn := by
  intro e he
  unfold createMessageEdges at he
  cases hname : m.name with
  | none => rw [hname] at he; cases he
  | some mn =>
    rw [hname] at he
    simp only [] at he
    refine ⟨mn, rfl, ?_⟩
    refine foldl_preserve
      (P := fun (acc : List Edge × List Node) =>
        ∀ e' ∈ acc.1, e'.source = generateNodeId package mn)
      m.field ([], nodes) ?_ ?_ e he
    · intro acc f _ hacc e' he'
      repeat' split at he'
      all_goals
        first
        | exact hacc e' he'
        | exact source_append_singleton hacc e' he'
    · intro e' he'
      cases he'

theorem cme_edge_intro {a : Analyzer} {m : DescriptorProto} {package : String}
    {nodes : List Node} {mn tn tid : String} {f : FieldDescriptorProto}
    (hmn : m.name = some mn) (hf : f ∈ m.field) (htn : f.typeName = some tn)
    (hl : a.typeToNodeId.lookup tn = some tid) :
    (⟨generateNodeId package mn, tid⟩ : Edge) ∈ (createMessageEdges a m package nodes).1 := by
  unfold createMessageEdges
  rw [hmn]
  simp only []
  refine foldl_intro
    (P := fun (acc : List Edge × List Node) =>
      (⟨generateNodeId package mn, tid⟩ : Edge) ∈ acc.1)
    m.field hf ?_ ?_ ([], nodes)
  · intro st g _ hst
    repeat' split
    all_goals
      first
      | exact hst
      | exact List.mem_append_left _ hst
  · intro st
    simp only [htn, hl]
    exact List.mem_append_right _ (List.mem_singleton_self _)

theorem cme_aux_edges_indep (a : Analyzer) (src : String) :
    ∀ (fields : List FieldDescriptorProto) (e0 : List Edge) (ns ns' : List Node),
      (fields.foldl (fun (acc : List Edge × List Node) f =>
        match f.typeName with
        | none => acc
        | some tn =>
          match a.typeToNodeId.lookup tn with
          | none => acc
          | some targetId =>
            let nodes := if isExternalType tn then ensureExternalNode targetId tn acc.2
              else acc.2
            (acc.1 ++ [⟨src, targetId⟩], nodes)) (e0, ns)).1 =
      (fields.foldl (fun (acc : List Edge × List Node) f =>
        match f.typeName with
        | none => acc
        | some tn =>
          match a.typeToNodeId.lookup tn with
          | none => acc
          | some targetId =>
            let nodes := if isExternalType tn then ensureExternalNode targetId tn acc.2
              else acc.2
            (acc.1 ++ [⟨src, targetId⟩], nodes)) (e0, ns')).1 := by
  intro fields
  induction fields with
  | nil => intro e0 ns ns'; rfl
  | cons g rest ih =>
    intro e0 ns ns'
    simp only [List.foldl_cons]
    cases hg : g.typeName with
    | none =>
      simp only [hg]
      exact ih e0 ns ns'
    | some tn =>
      simp only [hg]
      cases hl : a.typeToNodeId.lookup tn with
      | none =>
        simp only [hl]
        exact ih e0 ns ns'
      | some tid =>
        simp only [hl]
        exact ih (e0 ++ [⟨src, tid⟩]) _ _

theorem cme_edges_indep (a : Analyzer) (m : DescriptorProto) (package : String)
    (ns ns' : List Node) :
    (createMessageEdges a m package ns).1 = (createMessageEdges a m package ns').1 := by
  unfold createMessageEdges
  cases hname : m.name with
  | none => rfl
  | some mn =>
    simp only []
    exact cme_aux_edges_indep a (generateNodeId package mn) m.field [] ns ns'

theorem cme_node_intro {a : Analyzer} {m : DescriptorProto} {package : String}
    {nodes : List Node} {mn tn tid : String} {f : FieldDescriptorProto}
    (hmn : m.name = some mn) (hf : f ∈ m.field) (htn : f.typeName = some tn)
    (hl : a.typeToNodeId.lookup tn = some tid) (hext : isExternalType tn = true) :
    ∃ n ∈ (createMessageEdges a m package nodes).2, n.id = tid := by
  unfold createMessageEdges
  rw [hmn]
  simp only []
  refine foldl_intro
    (P := fun (acc : List Edge × List Node) => ∃ n ∈ acc.2, n.id = tid)
    m.field hf ?_ ?_ ([], nodes)
  · intro st g _ hst
    obtain ⟨n, hn, hid⟩ := hst
    repeat' split
    all_goals
      first
      | exact ⟨n, hn, hid⟩
      | exact ⟨n, ensure_mono hn, hid⟩
  · intro st
    simp only [htn, hl, hext, if_true]
    exact ensure_id_mem tid tn st.2

theorem cme_nodes_provenance {a : Analyzer} {m : DescriptorProto} {package : String}
    {nodes : List Node} :
    ∀ n ∈ (createMessageEdges a m package nodes).2, n ∈ nodes ∨ n.nodeType = .External := by
  unfold createMessageEdges
  cases hname : m.name with
  | none => intro n hn; exact Or.inl hn
  | some mn =>
    simp only []
    refine foldl_preserve
      (P := fun (acc : List Edge × List Node) =>
        ∀ n ∈ acc.2, n ∈ nodes ∨ n.nodeType = .External)
      m.field ([], nodes) ?_ ?_
    · intro acc f _ hacc n hn
      repeat' split at hn
      all_goals
        first
        | exact hacc n hn
        | rcases ensure_provenance n hn with h' | h'
          · exact hacc n h'
          · exact Or.inr h'.1
    · intro n hn
      exact Or.inl hn

theorem cme_extIds_nodup {a : Analyzer} {m : DescriptorProto} {package : String}
    {nodes : List Node}
    (h : ((nodes.filter (fun n => n.nodeType == .External)).map (fun n => n.id)).Nodup) :
    ((((createMessageEdges a m package nodes).2.filter
        (fun n => n.nodeType == .External)).map (fun n => n.id)).Nodup) := by
  unfold createMessageEdges
  cases hname : m.name with
  | none => exact h
  | some mn =>
    simp only []
    refine foldl_preserve
      (P := fun (acc : List Edge × List Node) =>
        ((acc.2.filter (fun n => n.nodeType == .External)).map (fun n => n.id)).Nodup)
      m.field ([], nodes) ?_ h
    intro acc f _ hacc
    repeat' split
    all_goals
      first
      | exact hacc
      | exact ensure_extIds_nodup hacc

/-! ### Lemmas about pass 3, one file at a time -/

theorem p3f_edges_mono {a : Analyzer} {st : List Node × List Edge}
    {f : FileDescriptorProto} {e : Edge} (h : e ∈ st.2) : e ∈ (passThreeFile a st f).2 := by
  unfold passThreeFile
  simp only []
  split
  · exact h
  · refine foldl_preserve (P := fun (st' : List Node × List Edge) => e ∈ st'.2)
      f.messageType _ ?_ ?_
    · intro st' m _ hst'
      exact List.mem_append_left _ hst'
    · refine foldl_preserve (P := fun (st' : List Node × List Edge) => e ∈ st'.2)
        f.service st ?_ h
      intro st' s _ hst'
      exact List.mem_append_left _ hst'

theorem p3f_nodes_mono {a : Analyzer} {st : List Node × List Edge}
    {f : FileDescriptorProto} {n : Node} (h : n ∈ st.1) : n ∈ (passThreeFile a st f).1 := by
  unfold passThreeFile
  simp only []
  split
  · exact h
  · refine foldl_preserve (P := fun (st' : List Node × List Edge) => n ∈ st'.1)
      f.messageType _ ?_ ?_
    · intro st' m _ hst'
      exact cme_nodes_mono hst'
    · refine foldl_preserve (P := fun (st' : List Node × List Edge) => n ∈ st'.1)
        f.service st ?_ h
      intro st' s _ hst'
      exact hst'

theorem p3f_edge_provenance {a : Analyzer} {st : List Node × List Edge}
    {f : FileDescriptorProto} :
    ∀ e ∈ (passThreeFile a st f).2,
      e ∈ st.2 ∨
        (isExternalFile (f.name.getD "") = false ∧
          ((∃ s ∈ f.service, e ∈ createServiceEdges a s (f.package.getD "")) ∨
           (∃ m ∈ f.messageType, e ∈ messageFieldEdges a m (f.package.getD "")))) := by
  intro e he
  unfold passThreeFile at he
  simp only [] at he
  split at he
  case isTrue _ => exact Or.inl he
  case isFalse hext =>
    have hextf : isExternalFile (f.name.getD "") = false := by simpa using hext
    refine foldl_preserve
      (P := fun (st' : List Node × List Edge) =>
        ∀ e' ∈ st'.2,
          e' ∈ st.2 ∨
            (isExternalFile (f.name.getD "") = false ∧
              ((∃ s ∈ f.service, e' ∈ createServiceEdges a s (f.package.getD "")) ∨
               (∃ m ∈ f.messageType, e' ∈ messageFieldEdges a m (f.package.getD "")))))
      f.messageType _ ?_ ?_ e he
    · intro st' m hm hst' e' he'
      rcases List.mem_append.mp he' with h | h
      · exact hst' e' h
      · refine Or.inr ⟨hextf, Or.inr ⟨m, hm, ?_⟩⟩
        unfold messageFieldEdges
        rw [cme_edges_indep a m (f.package.getD "") [] st'.1]
        exact h
    · refine foldl_preserve
        (P := fun (st' : List Node × List Edge) =>
          ∀ e' ∈ st'.2,
            e' ∈ st.2 ∨
              (isExternalFile (f.name.getD "") = false ∧
                ((∃ s ∈ f.service, e' ∈ createServiceEdges a s (f.package.getD "")) ∨
                 (∃ m ∈ f.messageType, e' ∈ messageFieldEdges a m (f.package.getD "")))))
        f.service st ?_ ?_
      · intro st' s hs hst' e' he'
        rcases List.mem_append.mp he' with h | h
        · exact hst' e' h
        · exact Or.inr ⟨hextf, Or.inl ⟨s, hs, h⟩⟩
      · intro e' he'
        exact Or.inl he'

theorem p3f_nodes_provenance {a : Analyzer} {st : List Node × List Edge}
    {f : FileDescriptorProto} :
    ∀ n ∈ (passThreeFile a st f).1, n ∈ st.1 ∨ n.nodeType = .External := by
  intro n hn
  unfold passThreeFile at hn
  simp only [] at hn
  split at hn
  case isTrue _ => exact Or.inl hn
  case isFalse _ =>
    refine foldl_preserve
      (P := fun (st' : List Node × List Edge) =>
        ∀ n' ∈ st'.1, n' ∈ st.1 ∨ n'.nodeType = .External)
      f.messageType _ ?_ ?_ n hn
    · intro st' m _ hst' n' hn'
      rcases cme_nodes_provenance n' hn' with h | h
      · exact hst' n' h
      · exact Or.inr h
    · refine foldl_preserve
        (P := fun (st' : List Node × List Edge) =>
          ∀ n' ∈ st'.1, n' ∈ st.1 ∨ n'.nodeType = .External)
        f.service st ?_ ?_
      · intro st' s _ hst' n' hn'
        exact hst' n' hn'
      · intro n' hn'
        exact Or.inl hn'

theorem p3f_extIds_nodup {a : Analyzer} {st : List Node × List Edge}
    {f : FileDescriptorProto}
    (h : ((st.1.filter (fun n => n.nodeType == .External)).map (fun n => n.id)).Nodup) :
    ((((passThreeFile a st f).1.filter
        (fun n => n.nodeType == .External)).map (fun n => n.id)).Nodup) := by
  unfold passThreeFile
  simp only []
  split
  · exact h
  · refine foldl_preserve
      (P := fun (st' : List Node × List Edge) =>
        ((st'.1.filter (fun n => n.nodeType == .External)).map (fun n => n.id)).Nodup)
      f.messageType _ ?_ ?_
    · intro st' m _ hst'
      exact cme_extIds_nodup hst'
    · refine foldl_preserve
        (P := fun (st' : List Node × List Edge) =>
          ((st'.1.filter (fun n => n.nodeType == .External)).map (fun n => n.id)).Nodup)
        f.service st ?_ h
      intro st' s _ hst'
      exact hst'

theorem p3f_node_intro {a : Analyzer} {st : List Node × List Edge}
    {f : FileDescriptorProto} {m : DescriptorProto} {mn tn tid : String}
    {fld : FieldDescriptorProto}
    (hint : isExternalFile (f.name.getD "") = false) (hm : m ∈ f.messageType)
    (hmn : m.name = some mn) (hfld : fld ∈ m.field) (htn : fld.typeName = some tn)
    (hl : a.typeToNodeId.lookup tn = some tid) (hext : isExternalType tn = true) :
    ∃ n ∈ (passThreeFile a st f).1, n.id = tid := by
  unfold passThreeFile
  simp only []
  rw [hint]
  simp only [Bool.false_eq_true, if_false]
  refine foldl_intro
    (P := fun (st' : List Node × List Edge) => ∃ n ∈ st'.1, n.id = tid)
    f.messageType hm ?_ ?_ _
  · intro st' m' _ hst'
    obtain ⟨n, hn, hid⟩ := hst'
    exact ⟨n, cme_nodes_mono hn, hid⟩
  · intro st'
    exact cme_node_intro hmn hfld htn hl hext

theorem p3f_edge_intro {a : Analyzer} {st : List Node × List Edge}
    {f : FileDescriptorProto} {m : DescriptorProto} {e : Edge}
    (hint : isExternalFile (f.name.getD "") = false) (hm : m ∈ f.messageType)
    (he : e ∈ messageFieldEdges a m (f.package.getD "")) :
    e ∈ (passThreeFile a st f).2 := by
  unfold passThreeFile
  simp only []
  rw [hint]
  simp only [Bool.false_eq_true, if_false]
  refine foldl_intro
    (P := fun (st' : List Node × List Edge) => e ∈ st'.2)
    f.messageType hm ?_ ?_ _
  · intro st' m' _ hst'
    exact List.mem_append_left _ hst'
  · intro st'
    refine List.mem_append_right _ ?_
    unfold messageFieldEdges at he
    rw [cme_edges_indep a m (f.package.getD "") [] st'.1] at he
    exact he

/-! ### Lemmas about passes 1 and 2 -/

theorem createMessageNode_some (a : Analyzer) (m : DescriptorProto) (package fn : String)
    {mn : String} (hmn : m.name = some mn) :
    ∃ a' fields, createMessageNode a m package fn =
      (a', some ⟨generateNodeId package mn, .Message, package, mn, fn, .Message fields⟩) := by
  unfold createMessageNode
  rw [hmn]
  exact ⟨_, _, rfl⟩

theorem createMessageNode_inv {a : Analyzer} {m : DescriptorProto} {package fn : String}
    {a' : Analyzer} {nd : Node}
    (h : createMessageNode a m package fn = (a', some nd)) :
    ∃ mn, m.name = some mn ∧ nd.id = generateNodeId package mn ∧ nd.nodeType = .Message := by
  unfold createMessageNode at h
  cases hmn : m.name with
  | none => rw [hmn] at h; simp at h
  | some mn =>
    rw [hmn] at h
    simp only [] at h
    injection h with h1 h2
    injection h2 with h3
    subst h3
    exact ⟨mn, rfl, rfl, rfl⟩

theorem createEnumNode_inv {a : Analyzer} {en : EnumDescriptorProto} {package fn : String}
    {a' : Analyzer} {nd : Node}
    (h : createEnumNode a en package fn = (a', some nd)) :
    ∃ n, en.name = some n ∧ nd.id = generateNodeId package n ∧ nd.nodeType = .Enum := by
  unfold createEnumNode at h
  cases hn : en.name with
  | none => rw [hn] at h; simp at h
  | some n =>
    rw [hn] at h
    simp only [] at h
    injection h with h1 h2
    injection h2 with h3
    subst h3
    exact ⟨n, rfl, rfl, rfl⟩

theorem createServiceNode_some (a : Analyzer) (s : ServiceDescriptorProto) (package fn : String)
    {sn : String} (hsn : s.name = some sn) :
    ∃ a' methods messages, createServiceNode a s package fn =
      (a', some ⟨generateNodeId package sn, .Service, package, sn, fn,
        .Service methods messages⟩) := by
  unfold createServiceNode
  rw [hsn]
  exact ⟨_, _, _, rfl⟩

theorem createServiceNode_inv {a : Analyzer} {s : ServiceDescriptorProto} {package fn : String}
    {a' : Analyzer} {nd : Node}
    (h : createServiceNode a s package fn = (a', some nd)) :
    ∃ sn, s.name = some sn ∧ nd.id = generateNodeId package sn ∧ nd.nodeType = .Service := by
  unfold createServiceNode at h
  cases hsn : s.name with
  | none => rw [hsn] at h; simp at h
  | some sn =>
    rw [hsn] at h
    simp only [] at h
    injection h with h1 h2
    injection h2 with h3
    subst h3
    exact ⟨sn, rfl, rfl, rfl⟩

theorem p1f_nodes_mono {st : Analyzer × List Node} {f : FileDescriptorProto} {n : Node}
    (h : n ∈ st.2) : n ∈ (passOneFile st f).2 := by
  unfold passOneFile
  simp only []
  refine foldl_preserve (P := fun (st' : Analyzer × List Node) => n ∈ st'.2)
    f.enumType _ ?_ ?_
  · intro st' e _ hst'
    split
    · exact hst'
    · split
      · exact List.mem_append_left _ hst'
      · exact hst'
  · refine foldl_preserve (P := fun (st' : Analyzer × List Node) => n ∈ st'.2)
      f.messageType st ?_ h
    intro st' m _ hst'
    split
    · exact hst'
    · split
      · exact List.mem_append_left _ hst'
      · exact hst'

theorem p1f_message_node_intro {st : Analyzer × List Node} {f : FileDescriptorProto}
    {m : DescriptorProto} {mn : String}
    (hint : isExternalFile (f.name.getD "") = false) (hm : m ∈ f.messageType)
    (hmn : m.name = some mn) :
    ∃ nd ∈ (passOneFile st f).2,
      nd.id = generateNodeId (f.package.getD "") mn ∧ nd.nodeType = .Message := by
  unfold passOneFile
  simp only []
  refine foldl_preserve
    (P := fun (st' : Analyzer × List Node) =>
      ∃ nd ∈ st'.2, nd.id = generateNodeId (f.package.getD "") mn ∧ nd.nodeType = .Message)
    f.enumType _ ?_ ?_
  · intro st' e _ hst'
    obtain ⟨nd, hnd, hp⟩ := hst'
    split
    · exact ⟨nd, hnd, hp⟩
    · split
      · exact ⟨nd, List.mem_append_left _ hnd, hp⟩
      · exact ⟨nd, hnd, hp⟩
  · refine foldl_intro
      (P := fun (st' : Analyzer × List Node) =>
        ∃ nd ∈ st'.2, nd.id = generateNodeId (f.package.getD "") mn ∧ nd.nodeType = .Message)
      f.messageType hm ?_ ?_ st
    · intro st' m' _ hst'
      obtain ⟨nd, hnd, hp⟩ := hst'
      split
      · exact ⟨nd, hnd, hp⟩
      · split
        · exact ⟨nd, List.mem_append_left _ hnd, hp⟩
        · exact ⟨nd, hnd, hp⟩
    · intro st'
      rw [hint]
      simp only [Bool.false_eq_true, if_false]
      obtain ⟨a', fields, hcm⟩ :=
        createMessageNode_some st'.1 m (f.package.getD "") (f.name.getD "") hmn
      rw [hcm]
      exact ⟨_, List.mem_append_right _ (List.mem_singleton_self _), rfl, rfl⟩

theorem p1f_node_provenance {st : Analyzer × List Node} {f : FileDescriptorProto} :
    ∀ nd ∈ (passOneFile st f).2,
      nd ∈ st.2 ∨
        (isExternalFile (f.name.getD "") = false ∧
          ((∃ m ∈ f.messageType, ∃ mn, m.name = some mn ∧
              nd.id = generateNodeId (f.package.getD "") mn ∧ nd.nodeType = .Message) ∨
           (∃ e ∈ f.enumType, ∃ en, e.name = some en ∧
              nd.id = generateNodeId (f.package.getD "") en ∧ nd.nodeType = .Enum))) := by
  intro nd hnd
  unfold passOneFile at hnd
  simp only [] at hnd
  refine foldl_preserve
    (P := fun (st' : Analyzer × List Node) =>
      ∀ nd' ∈ st'.2,
        nd' ∈ st.2 ∨
          (isExternalFile (f.name.getD "") = false ∧
            ((∃ m ∈ f.messageType, ∃ mn, m.name = some mn ∧
                nd'.id = generateNodeId (f.package.getD "") mn ∧ nd'.nodeType = .Message) ∨
             (∃ e ∈ f.enumType, ∃ en, e.name = some en ∧
                nd'.id = generateNodeId (f.package.getD "") en ∧ nd'.nodeType = .Enum))))
    f.enumType _ ?_ ?_ nd hnd
  · intro st' e he hst' nd' hnd'
    by_cases hext : isExternalFile (f.name.getD "") = true
    · rw [if_pos hext] at hnd'
      exact hst' nd' hnd'
    · have hextf : isExternalFile (f.name.getD "") = false := by simpa using hext
      rw [if_neg hext] at hnd'
      rcases hcn : createEnumNode st'.1 e (f.package.getD "") (f.name.getD "") with ⟨a', onode⟩
      cases onode with
      | none => rw [hcn] at hnd'; exact hst' nd' hnd'
      | some newNode =>
        rw [hcn] at hnd'
        rcases List.mem_append.mp hnd' with h | h
        · exact hst' nd' h
        · obtain ⟨en, hen, hid, hty⟩ := createEnumNode_inv hcn
          have : nd' = newNode := List.mem_singleton.mp h
          subst this
          exact Or.inr ⟨hextf, Or.inr ⟨e, he, en, hen, hid, hty⟩⟩
  · refine foldl_preserve
      (P := fun (st' : Analyzer × List Node) =>
        ∀ nd' ∈ st'.2,
          nd' ∈ st.2 ∨
            (isExternalFile (f.name.getD "") = false ∧
              ((∃ m ∈ f.messageType, ∃ mn, m.name = some mn ∧
                  nd'.id = generateNodeId (f.package.getD "") mn ∧ nd'.nodeType = .Message) ∨
               (∃ e ∈ f.enumType, ∃ en, e.name = some en ∧
                  nd'.id = generateNodeId (f.package.getD "") en ∧ nd'.nodeType = .Enum))))
      f.messageType st ?_ ?_
    · intro st' m hm hst' nd' hnd'
      by_cases hext : isExternalFile (f.name.getD "") = true
      · rw [if_pos hext] at hnd'
        exact hst' nd' hnd'
      · have hextf : isExternalFile (f.name.getD "") = false := by simpa using hext
        rw [if_neg hext] at hnd'
        rcases hcm : createMessageNode st'.1 m (f.package.getD "") (f.name.getD "") with ⟨a', onode⟩
        cases onode with
        | none => rw [hcm] at hnd'; exact hst' nd' hnd'
        | some newNode =>
          rw [hcm] at hnd'
          rcases List.mem_append.mp hnd' with h | h
          · exact hst' nd' h
          · obtain ⟨mn, hmn, hid, hty⟩ := createMessageNode_inv hcm
            have : nd' = newNode := List.mem_singleton.mp h
            subst this
            exact Or.inr ⟨hextf, Or.inl ⟨m, hm, mn, hmn, hid, hty⟩⟩
    · intro nd' hnd'
      exact Or.inl hnd'

theorem p2f_nodes_mono {st : Analyzer × List Node} {f : FileDescriptorProto} {n : Node}
    (h : n ∈ st.2) : n ∈ (passTwoFile st f).2 := by
  unfold passTwoFile
  simp only []
  refine foldl_preserve (P := fun (st' : Analyzer × List Node) => n ∈ st'.2)
    f.service st ?_ h
  intro st' s _ hst'
  split
  · exact List.mem_append_left _ hst'
  · exact hst'

theorem p2f_service_node_intro {st : Analyzer × List Node} {f : FileDescriptorProto}
    {s : ServiceDescriptorProto} {sn : String}
    (hs : s ∈ f.service) (hsn : s.name = some sn) :
    ∃ nd ∈ (passTwoFile st f).2,
      nd.id = generateNodeId (f.package.getD "") sn ∧ nd.nodeType = .Service := by
  unfold passTwoFile
  simp only []
  refine foldl_intro
    (P := fun (st' : Analyzer × List Node) =>
      ∃ nd ∈ st'.2, nd.id = generateNodeId (f.package.getD "") sn ∧ nd.nodeType = .Service)
    f.service hs ?_ ?_ st
  · intro st' s' _ hst'
    obtain ⟨nd, hnd, hp⟩ := hst'
    split
    · exact ⟨nd, List.mem_append_left _ hnd, hp⟩
    · exact ⟨nd, hnd, hp⟩
  · intro st'
    obtain ⟨a', methods, messages, hcs⟩ :=
      createServiceNode_some st'.1 s (f.package.getD "") (f.name.getD "") hsn
    rw [hcs]
    exact ⟨_, List.mem_append_right _ (List.mem_singleton_self _), rfl, rfl⟩

theorem p2f_node_provenance {st : Analyzer × List Node} {f : FileDescriptorProto} :
    ∀ nd ∈ (passTwoFile st f).2,
      nd ∈ st.2 ∨
        (∃ s ∈ f.service, ∃ sn, s.name = some sn ∧
          nd.id = generateNodeId (f.package.getD "") sn ∧ nd.nodeType = .Service) := by
  intro nd hnd
  unfold passTwoFile at hnd
  simp only [] at hnd
  refine foldl_preserve
    (P := fun (st' : Analyzer × List Node) =>
      ∀ nd' ∈ st'.2,
        nd' ∈ st.2 ∨
          (∃ s ∈ f.service, ∃ sn, s.name = some sn ∧
            nd'.id = generateNodeId (f.package.getD "") sn ∧ nd'.nodeType = .Service))
    f.service st ?_ ?_ nd hnd
  · intro st' s hs hst' nd' hnd'
    rcases hcs : createServiceNode st'.1 s (f.package.getD "") (f.name.getD "") with ⟨a', onode⟩
    cases onode with
    | none => rw [hcs] at hnd'; exact hst' nd' hnd'
    | some newNode =>
      rw [hcs] at hnd'
      rcases List.mem_append.mp hnd' with h | h
      · exact hst' nd' h
      · obtain ⟨sn, hsn, hid, hty⟩ := createServiceNode_inv hcs
        have : nd' = newNode := List.mem_singleton.mp h
        subst this
        exact Or.inr ⟨s, hs, sn, hsn, hid, hty⟩
  · intro nd' hnd'
    exact Or.inl hnd'

/-! ### Lemmas about the full passes over all files -/

theorem p12_message_node_intro {a : Analyzer} {fds : FileDescriptorSet}
    {f : FileDescriptorProto} {m : DescriptorProto} {mn : String}
    (hf : f ∈ fds.file) (hint : isExternalFile (f.name.getD "") = false)
    (hm : m ∈ f.messageType) (hmn : m.name = some mn) :
    ∃ nd ∈ (analyzePass12 a fds).2,
      nd.id = generateNodeId (f.package.getD "") mn ∧ nd.nodeType = .Message := by
  unfold analyzePass12
  simp only []
  refine foldl_preserve
    (P := fun (st : Analyzer × List Node) =>
      ∃ nd ∈ st.2, nd.id = generateNodeId (f.package.getD "") mn ∧ nd.nodeType = .Message)
    fds.file _ ?_ ?_
  · intro st f' _ hst
    obtain ⟨nd, hnd, hp⟩ := hst
    exact ⟨nd, p2f_nodes_mono hnd, hp⟩
  · refine foldl_intro
      (P := fun (st : Analyzer × List Node) =>
        ∃ nd ∈ st.2, nd.id = generateNodeId (f.package.getD "") mn ∧ nd.nodeType = .Message)
      fds.file hf ?_ ?_ (a, [])
    · intro st f' _ hst
      obtain ⟨nd, hnd, hp⟩ := hst
      exact ⟨nd, p1f_nodes_mono hnd, hp⟩
    · intro st
      exact p1f_message_node_intro hint hm hmn

theorem p12_service_node_intro {a : Analyzer} {fds : FileDescriptorSet}
    {f : FileDescriptorProto} {s : ServiceDescriptorProto} {sn : String}
    (hf : f ∈ fds.file) (hs : s ∈ f.service) (hsn : s.name = some sn) :
    ∃ nd ∈ (analyzePass12 a fds).2,
      nd.id = generateNodeId (f.package.getD "") sn ∧ nd.nodeType = .Service := by
  unfold analyzePass12
  simp only []
  refine foldl_intro
    (P := fun (st : Analyzer × List Node) =>
      ∃ nd ∈ st.2, nd.id = generateNodeId (f.package.getD "") sn ∧ nd.nodeType = .Service)
    fds.file hf ?_ ?_ _
  · intro st f' _ hst
    obtain ⟨nd, hnd, hp⟩ := hst
    exact ⟨nd, p2f_nodes_mono hnd, hp⟩
  · intro st
    exact p2f_service_node_intro hs hsn

theorem p12_node_provenance {a : Analyzer} {fds : FileDescriptorSet} :
    ∀ nd ∈ (analyzePass12 a fds).2,
      nodeFromInternalMessage fds nd ∨ nodeFromInternalEnum fds nd ∨
        nodeFromServiceDecl fds nd := by
  intro nd hnd
  unfold analyzePass12 at hnd
  simp only [] at hnd
  refine foldl_preserve
    (P := fun (st : Analyzer × List Node) =>
      ∀ nd' ∈ st.2,
        nodeFromInternalMessage fds nd' ∨ nodeFromInternalEnum fds nd' ∨
          nodeFromServiceDecl fds nd')
    fds.file _ ?_ ?_ nd hnd
  · intro st f' hf' hst nd' hnd'
    rcases p2f_node_provenance nd' hnd' with h | h
    · exact hst nd' h
    · obtain ⟨s, hs, sn, hsn, hid, hty⟩ := h
      exact Or.inr (Or.inr ⟨f', hf', s, hs, sn, hsn, hid, hty⟩)
  · refine foldl_preserve
      (P := fun (st : Analyzer × List Node) =>
        ∀ nd' ∈ st.2,
          nodeFromInternalMessage fds nd' ∨ nodeFromInternalEnum fds nd' ∨
            nodeFromServiceDecl fds nd')
      fds.file (a, []) ?_ ?_
    · intro st f' hf' hst nd' hnd'
      rcases p1f_node_provenance nd' hnd' with h | h
      · exact hst nd' h
      · obtain ⟨hextf, hcase⟩ := h
        rcases hcase with ⟨m, hm, mn, hmn, hid, hty⟩ | ⟨e, he, en, hen, hid, hty⟩
        · exact Or.inl ⟨f', hf', hextf, m, hm, mn, hmn, hid, hty⟩
        · exact Or.inr (Or.inl ⟨f', hf', hextf, e, he, en, hen, hid, hty⟩)
    · intro nd' hnd'
      cases hnd'

theorem p12_not_external {a : Analyzer} {fds : FileDescriptorSet} :
    ∀ nd ∈ (analyzePass12 a fds).2, ¬ nd.nodeType = .External := by
  intro nd hnd h
  rcases p12_node_provenance nd hnd with hc | hc | hc
  · obtain ⟨f', _, _, m, _, mn, _, _, hty⟩ := hc
    rw [hty] at h
    cases h
  · obtain ⟨f', _, _, e, _, en, _, _, hty⟩ := hc
    rw [hty] at h
    cases h
  · obtain ⟨f', _, s, _, sn, _, _, hty⟩ := hc
    rw [hty] at h
    cases h

theorem pass3_nodes_super {a : Analyzer} {nodes : List Node} {fds : FileDescriptorSet}
    {n : Node} (h : n ∈ nodes) : n ∈ (analyzePass3 a nodes fds).1 := by
  unfold analyzePass3
  exact foldl_preserve (P := fun (st : List Node × List Edge) => n ∈ st.1)
    fds.file (nodes, []) (fun st f _ hst => p3f_nodes_mono hst) h

theorem pass3_node_provenance {a : Analyzer} {nodes : List Node} {fds : FileDescriptorSet} :
    ∀ n ∈ (analyzePass3 a nodes fds).1, n ∈ nodes ∨ n.nodeType = .External := by
  intro n hn
  unfold analyzePass3 at hn
  refine foldl_preserve
    (P := fun (st : List Node × List Edge) =>
      ∀ n' ∈ st.1, n' ∈ nodes ∨ n'.nodeType = .External)
    fds.file (nodes, []) ?_ ?_ n hn
  · intro st f _ hst n' hn'
    rcases p3f_nodes_provenance n' hn' with h | h
    · exact hst n' h
    · exact Or.inr h
  · intro n' hn'
    exact Or.inl hn'

theorem pass3_edge_provenance {a : Analyzer} {nodes : List Node} {fds : FileDescriptorSet} :
    ∀ e ∈ (analyzePass3 a nodes fds).2,
      ∃ f ∈ fds.file, isExternalFile (f.name.getD "") = false ∧
        ((∃ s ∈ f.service, e ∈ createServiceEdges a s (f.package.getD "")) ∨
         (∃ m ∈ f.messageType, e ∈ messageFieldEdges a m (f.package.getD ""))) := by
  intro e he
  unfold analyzePass3 at he
  refine foldl_preserve
    (P := fun (st : List Node × List Edge) =>
      ∀ e' ∈ st.2,
        ∃ f ∈ fds.file, isExternalFile (f.name.getD "") = false ∧
          ((∃ s ∈ f.service, e' ∈ createServiceEdges a s (f.package.getD "")) ∨
           (∃ m ∈ f.messageType, e' ∈ messageFieldEdges a m (f.package.getD ""))))
    fds.file (nodes, []) ?_ ?_ e he
  · intro st f hf hst e' he'
    rcases p3f_edge_provenance e' he' with h | ⟨hext, hc⟩
    · exact hst e' h
    · exact ⟨f, hf, hext, hc⟩
  · intro e' he'
    cases he'

theorem pass3_extIds_nodup {a : Analyzer} {nodes : List Node} {fds : FileDescriptorSet}
    (h : ((nodes.filter (fun n => n.nodeType == .External)).map (fun n => n.id)).Nodup) :
    ((((analyzePass3 a nodes fds).1.filter
        (fun n => n.nodeType == .External)).map (fun n => n.id)).Nodup) := by
  unfold analyzePass3
  exact foldl_preserve
    (P := fun (st : List Node × List Edge) =>
      ((st.1.filter (fun n => n.nodeType == .External)).map (fun n => n.id)).Nodup)
    fds.file (nodes, []) (fun st f _ hst => p3f_extIds_nodup hst) h

theorem pass3_node_intro {a : Analyzer} {nodes : List Node} {fds : FileDescriptorSet}
    {f : FileDescriptorProto} {m : DescriptorProto} {mn tn tid : String}
    {fld : FieldDescriptorProto}
    (hf : f ∈ fds.file) (hint : isExternalFile (f.name.getD "") = false)
    (hm : m ∈ f.messageType) (hmn : m.name = some mn) (hfld : fld ∈ m.field)
    (htn : fld.typeName = some tn) (hl : a.typeToNodeId.lookup tn = some tid)
    (hext : isExternalType tn = true) :
    ∃ n ∈ (analyzePass3 a nodes fds).1, n.id = tid := by
  unfold analyzePass3
  refine foldl_intro (P := fun (st : List Node × List Edge) => ∃ n ∈ st.1, n.id = tid)
    fds.file hf ?_ ?_ (nodes, [])
  · intro st f' _ hst
    obtain ⟨n, hn, hid⟩ := hst
    exact ⟨n, p3f_nodes_mono hn, hid⟩
  · intro st
    exact p3f_node_intro hint hm hmn hfld htn hl hext

theorem pass3_edge_intro {a : Analyzer} {nodes : List Node} {fds : FileDescriptorSet}
    {f : FileDescriptorProto} {m : DescriptorProto} {e : Edge}
    (hf : f ∈ fds.file) (hint : isExternalFile (f.name.getD "") = false)
    (hm : m ∈ f.messageType) (he : e ∈ messageFieldEdges a m (f.package.getD "")) :
    e ∈ (analyzePass3 a nodes fds).2 := by
  unfold analyzePass3
  refine foldl_intro (P := fun (st : List Node × List Edge) => e ∈ st.2)
    fds.file hf ?_ ?_ (nodes, [])
  · intro st f' _ hst
    exact p3f_edges_mono hst
  · intro st
    exact p3f_edge_intro hint hm he

/-! ### Nameless declarations are inert -/

theorem registerExternalType_none {a : Analyzer} {m : DescriptorProto} {package : String}
    (h : m.name = none) : registerExternalType a m package = a := by
  unfold registerExternalType
  rw [h]

theorem registerExternalEnum_none {a : Analyzer} {e : EnumDescriptorProto} {package : String}
    (h : e.name = none) : registerExternalEnum a e package = a := by
  unfold registerExternalEnum
  rw [h]

theorem createMessageNode_none {a : Analyzer} {m : DescriptorProto} {package fn : String}
    (h : m.name = none) : createMessageNode a m package fn = (a, none) := by
  unfold createMessageNode
  rw [h]

theorem createEnumNode_none {a : Analyzer} {e : EnumDescriptorProto} {package fn : String}
    (h : e.name = none) : createEnumNode a e package fn = (a, none) := by
  unfold createEnumNode
  rw [h]

theorem createServiceNode_none {a : Analyzer} {s : ServiceDescriptorProto} {package fn : String}
    (h : s.name = none) : createServiceNode a s package fn = (a, none) := by
  unfold createServiceNode
  rw [h]

theorem createServiceEdges_none {a : Analyzer} {s : ServiceDescriptorProto} {package : String}
    (h : s.name = none) : createServiceEdges a s package = [] := by
  unfold createServiceEdges
  rw [h]

theorem createMessageEdges_none {a : Analyzer} {m : DescriptorProto} {package : String}
    {nodes : List Node} (h : m.name = none) :
    createMessageEdges a m package nodes = ([], nodes) := by
  unfold createMessageEdges
  rw [h]

theorem p1f_drop (st : Analyzer × List Node) (f : FileDescriptorProto) :
    passOneFile st (fileDropUnnamed f) = passOneFile st f := by
  unfold passOneFile fileDropUnnamed
  simp only []
  have hmsg : ∀ (st' : Analyzer × List Node) (m : DescriptorProto),
      (m.name.isSome) = false →
      (if isExternalFile (f.name.getD "") = true then
        (registerExternalType st'.1 m (f.package.getD ""), st'.2)
      else
        match createMessageNode st'.1 m (f.package.getD "") (f.name.getD "") with
        | (a, some n) => (a, st'.2 ++ [n])
        | (a, none) => (a, st'.2)) = st' := by
    intro st' m hm
    have hname : m.name = none := Option.not_isSome_iff_eq_none.mp (by simp [hm])
    split
    · rw [registerExternalType_none hname]
    · rw [createMessageNode_none hname]
  have henum : ∀ (st' : Analyzer × List Node) (e : EnumDescriptorProto),
      (e.name.isSome) = false →
      (if isExternalFile (f.name.getD "") = true then
        (registerExternalEnum st'.1 e (f.package.getD ""), st'.2)
      else
        match createEnumNode st'.1 e (f.package.getD "") (f.name.getD "") with
        | (a, some n) => (a, st'.2 ++ [n])
        | (a, none) => (a, st'.2)) = st' := by
    intro st' e he
    have hname : e.name = none := Option.not_isSome_iff_eq_none.mp (by simp [he])
    split
    · rw [registerExternalEnum_none hname]
    · rw [createEnumNode_none hname]
  rw [foldl_filter _ _ hmsg, foldl_filter _ _ henum]

theorem p2f_drop (st : Analyzer × List Node) (f : FileDescriptorProto) :
    passTwoFile st (fileDropUnnamed f) = passTwoFile st f := by
  unfold passTwoFile fileDropUnnamed
  simp only []
  have hsvc : ∀ (st' : Analyzer × List Node) (s : ServiceDescriptorProto),
      (s.name.isSome) = false →
      (match createServiceNode st'.1 s (f.package.getD "") (f.name.getD "") with
       | (a, some n) => (a, st'.2 ++ [n])
       | (a, none) => (a, st'.2)) = st' := by
    intro st' s hs
    have hname : s.name = none := Option.not_isSome_iff_eq_none.mp (by simp [hs])
    rw [createServiceNode_none hname]
  rw [foldl_filter _ _ hsvc]

theorem p3f_drop (a : Analyzer) (st : List Node × List Edge) (f : FileDescriptorProto) :
    passThreeFile a st (fileDropUnnamed f) = passThreeFile a st f := by
  unfold passThreeFile fileDropUnnamed
  simp only []
  split
  · rfl
  · have hsvc : ∀ (st' : List Node × List Edge) (s : ServiceDescriptorProto),
        (s.name.isSome) = false →
        (st'.1, st'.2 ++ createServiceEdges a s (f.package.getD "")) = st' := by
      intro st' s hs
      have hname : s.name = none := Option.not_isSome_iff_eq_none.mp (by simp [hs])
      rw [createServiceEdges_none hname, List.append_nil]
    have hmsg : ∀ (st' : List Node × List Edge) (m : DescriptorProto),
        (m.name.isSome) = false →
        ((createMessageEdges a m (f.package.getD "") st'.1).2,
          st'.2 ++ (createMessageEdges a m (f.package.getD "") st'.1).1) = st' := by
      intro st' m hm
      have hname : m.name = none := Option.not_isSome_iff_eq_none.mp (by simp [hm])
      rw [createMessageEdges_none hname, List.append_nil]
    rw [foldl_filter _ _ hmsg, foldl_filter _ _ hsvc]

/-- C3 amended: dropping every top-level declaration that lacks a name leaves the
built GraphModel unchanged — a nameless message, enum or service contributes
nothing, while the build always completes (analyze is total). -/
theorem c3_amended (fds : FileDescriptorSet) :
    analyze (dropUnnamedDecls fds) = analyze fds := by
  have h12 : analyzePass12 Analyzer.new (dropUnnamedDecls fds) =
      analyzePass12 Analyzer.new fds := by
    unfold analyzePass12 dropUnnamedDecls
    simp only []
    rw [List.foldl_map, List.foldl_map]
    have e1 : (fun (st : Analyzer × List Node) f => passOneFile st (fileDropUnnamed f)) =
        passOneFile := funext fun st => funext fun f => p1f_drop st f
    have e2 : (fun (st : Analyzer × List Node) f => passTwoFile st (fileDropUnnamed f)) =
        passTwoFile := funext fun st => funext fun f => p2f_drop st f
    rw [e1, e2]
  have h3 : ∀ (a : Analyzer) (nodes : List Node),
      analyzePass3 a nodes (dropUnnamedDecls fds) = analyzePass3 a nodes fds := by
    intro a nodes
    unfold analyzePass3 dropUnnamedDecls
    simp only []
    rw [List.foldl_map]
    have e : (fun (st : List Node × List Edge) f => passThreeFile a st (fileDropUnnamed f)) =
        passThreeFile a := funext fun st => funext fun f => p3f_drop a st f
    rw [e]
  unfold analyze analyzeWith
  simp only []
  rw [h12, h3]

/-- C8: the final edge list never holds two edges with the same (source, target)
pair — a pair occurs exactly once when pass 3 emitted it at all — and a message
field of an internal named message whose type reference resolves yields exactly
one edge for its (source, target) pair. -/
theorem c8_edge_dedup (fds : FileDescriptorSet) (s t : String) :
    ((analyze fds).edges.countP (fun e => e.source == s && e.target == t) =
      if (analyzeRawEdges fds).any (fun e => e.source == s && e.target == t) then 1 else 0) ∧
    (∀ f ∈ fds.file, isExternalFile (f.name.getD "") = false →
      ∀ m ∈ f.messageType, ∀ mn, m.name = some mn →
      ∀ fld ∈ m.field, ∀ tn, fld.typeName = some tn →
      (analyzePass12 Analyzer.new fds).1.typeToNodeId.lookup tn = some t →
      s = generateNodeId (f.package.getD "") mn →
      (analyze fds).edges.countP (fun e => e.source == s && e.target == t) = 1) := by
  have h1 : (analyze fds).edges.countP (fun e => e.source == s && e.target == t) =
      if (analyzeRawEdges fds).any (fun e => e.source == s && e.target == t) then 1
      else 0 := by
    have heq : (analyze fds).edges = deduplicateEdges (analyzeRawEdges fds) := rfl
    rw [heq]
    unfold deduplicateEdges
    rw [countP_dedupEdgesAux s t (analyzeRawEdges fds) []]
    simp
  refine ⟨h1, ?_⟩
  intro f hf hint m hm mn hmn fld hfld tn htn hl hs
  subst hs
  have hedge : (⟨generateNodeId (f.package.getD "") mn, t⟩ : Edge) ∈ analyzeRawEdges fds := by
    unfold analyzeRawEdges
    refine pass3_edge_intro hf hint hm ?_
    unfold messageFieldEdges
    exact cme_edge_intro hmn hfld htn hl
  have hany : (analyzeRawEdges fds).any
      (fun e => e.source == generateNodeId (f.package.getD "") mn && e.target == t) = true :=
    List.any_eq_true.mpr ⟨_, hedge, by simp⟩
  rw [h1, if_pos hany]

/-- C8 witness: on the scenario input the `status` field of `user.v1.User`
resolves to `user.v1.UserStatus` and the final model has exactly one such edge. -/
theorem c8_edge_dedup_witness :
    (analyze exUserV1).edges.countP
      (fun e => e.source == "user.v1.User" && e.target == "user.v1.UserStatus") = 1 :=
  (c8_edge_dedup exUserV1 "user.v1.User" "user.v1.UserStatus").2
    exUserV1File (List.mem_singleton_self _) (by decide)
    exUserMessage (List.mem_cons_of_mem _ (List.mem_singleton_self _)) "User" rfl
    exStatusField (List.mem_cons_of_mem _ (List.mem_singleton_self _))
    ".user.v1.UserStatus" rfl (by decide) rfl

/-- C9: the built model holds at most one External node per node id (so per
distinct fully-qualified external type), and a message field of an internal named
message that resolves to an external type guarantees a node carrying the resolved
id exists in the model (synthesis is idempotent: a pre-existing node with the id
suppresses insertion). -/
theorem c9_external_uniqueness (fds : FileDescriptorSet) (tn tid : String) :
    ((((analyze fds).nodes.filter (fun n => n.nodeType == .External)).map
        (fun n => n.id)).Nodup) ∧
    (∀ f ∈ fds.file, isExternalFile (f.name.getD "") = false →
      ∀ m ∈ f.messageType, ∀ mn, m.name = some mn →
      ∀ fld ∈ m.field, fld.typeName = some tn →
      (analyzePass12 Analyzer.new fds).1.typeToNodeId.lookup tn = some tid →
      isExternalType tn = true →
      ∃ n ∈ (analyze fds).nodes, n.id = tid) := by
  have hnodes : (analyze fds).nodes =
      (analyzePass3 (analyzePass12 Analyzer.new fds).1
        (analyzePass12 Analyzer.new fds).2 fds).1 := rfl
  constructor
  · rw [hnodes]
    refine pass3_extIds_nodup ?_
    have hfe : ((analyzePass12 Analyzer.new fds).2.filter
        (fun n => n.nodeType == .External)) = [] := by
      rw [List.filter_eq_nil_iff]
      intro n hn
      simpa using p12_not_external n hn
    rw [hfe]
    exact List.nodup_nil
  · intro f hf hint m hm mn hmn fld hfld htn hl hext
    rw [hnodes]
    exact pass3_node_intro hf hint hm hmn hfld htn hl hext

/-- C9 witness: the Timestamp scenario — the resolved external id
`google.protobuf.Timestamp` is present as a node. -/
theorem c9_external_uniqueness_witness :
    ∃ n ∈ (analyze exExternalRef).nodes, n.id = "google.protobuf.Timestamp" :=
  (c9_external_uniqueness exExternalRef ".google.protobuf.Timestamp"
      "google.protobuf.Timestamp").2
    exUserFileMsg (List.mem_cons_of_mem _ (List.mem_singleton_self _)) (by decide)
    exExtUserMessage (List.mem_singleton_self _) "User" rfl
    exCreatedAtField (List.mem_singleton_self _) rfl (by decide) (by decide)

/-- C1 amended: every edge's source id is present among the model's nodes; targets
are not covered — service-method edges to externally-defined types and edges to
nested internal types can dangle (see the counterexample). -/
theorem c1_amended (fds : FileDescriptorSet) :
    ∀ e ∈ (analyze fds).edges, ∃ n ∈ (analyze fds).nodes, n.id = e.source := by
  intro e he
  have hraw : e ∈ analyzeRawEdges fds := by
    have heq : (analyze fds).edges = deduplicateEdges (analyzeRawEdges fds) := rfl
    rw [heq] at he
    exact mem_dedupEdgesAux he
  have hnodes : (analyze fds).nodes =
      (analyzePass3 (analyzePass12 Analyzer.new fds).1
        (analyzePass12 Analyzer.new fds).2 fds).1 := rfl
  obtain ⟨f, hf, hint, hc⟩ := pass3_edge_provenance e hraw
  rcases hc with ⟨s, hs, hes⟩ | ⟨m, hm, hem⟩
  · obtain ⟨sn, hsn, hsource⟩ := cse_source e hes
    obtain ⟨nd, hnd, hid, _⟩ := p12_service_node_intro (a := Analyzer.new) hf hs hsn
    refine ⟨nd, ?_, ?_⟩
    · rw [hnodes]
      exact pass3_nodes_super hnd
    · rw [hid, hsource]
  · unfold messageFieldEdges at hem
    obtain ⟨mn, hmn, hsource⟩ := cme_source e hem
    obtain ⟨nd, hnd, hid, _⟩ := p12_message_node_intro (a := Analyzer.new) hf hint hm hmn
    refine ⟨nd, ?_, ?_⟩
    · rw [hnodes]
      exact pass3_nodes_super hnd
    · rw [hid, hsource]

/-- C1 amended witness: on the scenario graph the edge from `user.v1.User` has its
source id among the nodes. -/
theorem c1_amended_witness :
    ∃ n ∈ (analyze exUserV1).nodes,
      n.id = (⟨"user.v1.User", "user.v1.UserStatus"⟩ : Edge).source :=
  c1_amended exUserV1 ⟨"user.v1.User", "user.v1.UserStatus"⟩ (by decide)

/-- C10 amended: every node is an External node or traces to a top-level
declaration — a message or enum of an internal file, or a service of any file
(external files included) — and every edge comes from a service method or a
top-level message field of an internal file; nested declarations never become
nodes and their fields never produce edges. -/
theorem c10_amended (fds : FileDescriptorSet) :
    (∀ n ∈ (analyze fds).nodes,
      n.nodeType = .External ∨ nodeFromInternalMessage fds n ∨
        nodeFromInternalEnum fds n ∨ nodeFromServiceDecl fds n) ∧
    (∀ e ∈ (analyze fds).edges,
      ∃ f ∈ fds.file, isExternalFile (f.name.getD "") = false ∧
        ((∃ s ∈ f.service,
            e ∈ createServiceEdges (analyzePass12 Analyzer.new fds).1 s
              (f.package.getD "")) ∨
         (∃ m ∈ f.messageType,
            e ∈ messageFieldEdges (analyzePass12 Analyzer.new fds).1 m
              (f.package.getD "")))) := by
  have hnodes : (analyze fds).nodes =
      (analyzePass3 (analyzePass12 Analyzer.new fds).1
        (analyzePass12 Analyzer.new fds).2 fds).1 := rfl
  constructor
  · intro n hn
    rw [hnodes] at hn
    rcases pass3_node_provenance n hn with h | h
    · rcases p12_node_provenance n h with h' | h' | h'
      · exact Or.inr (Or.inl h')
      · exact Or.inr (Or.inr (Or.inl h'))
      · exact Or.inr (Or.inr (Or.inr h'))
    · exact Or.inl h
  · intro e he
    have heq : (analyze fds).edges = deduplicateEdges (analyzeRawEdges fds) := rfl
    rw [heq] at he
    exact pass3_edge_provenance e (mem_dedupEdgesAux he)

/-- C10 amended witness: the scenario's `user.v1.User` node traces to a top-level
declaration. -/
theorem c10_amended_witness :
    exUserBaseNode.nodeType = .External ∨ nodeFromInternalMessage exUserV1 exUserBaseNode ∨
      nodeFromInternalEnum exUserV1 exUserBaseNode ∨
      nodeFromServiceDecl exUserV1 exUserBaseNode :=
  (c10_amended exUserV1).1 exUserBaseNode (by decide)

end Coral
